import Mathlib

/-!
Verification of the VM & container lifecycle orchestrator in
`desktop/src-tauri/src/backend.rs` against its natural-language
specification. Pure helper functions (naming, hashing, path rewriting,
yq expression construction) are embedded directly; operations that talk
to the hypervisor CLI or the guest shell are embedded as functions over
explicit oracles (guest probe results, spawn outcomes) together with an
action trace recording which external operations were invoked, and the
single-flight registry is embedded as a small state machine over atomic
registry events. Machine integers are `Nat` with explicit `% 2 ^ 64`.
-/

set_option maxRecDepth 4000

namespace Falck

/-! ## UTF-8 byte view of strings

Rust hashes and measures strings through `str::as_bytes`; these helpers
give the corresponding byte list of a Lean `String`. -/

/-- UTF-8 encoding of a single character as its list of byte values. -/
def utf8Bytes (c : Char) : List Nat :=
  let n := c.toNat
  if n < 0x80 then [n]
  else if n < 0x800 then [0xc0 + n / 64, 0x80 + n % 64]
  else if n < 0x10000 then [0xe0 + n / 4096, 0x80 + n / 64 % 64, 0x80 + n % 64]
  else [0xf0 + n / 262144, 0x80 + n / 4096 % 64, 0x80 + n / 64 % 64, 0x80 + n % 64]

/-- Byte list of a string, mirroring Rust `str::as_bytes`. -/
def strBytes (s : String) : List Nat :=
  (s.data.map utf8Bytes).flatten

/-- Byte length of a string, mirroring Rust `str::len`. -/
def byteLen (s : String) : Nat :=
  (strBytes s).length

/-! ## Naming & addressing (`fnv1a_hash`, `sanitize_name`, `vm_name_for_repo`,
`lima_mount_target`, `lima_legacy_mount_target`) -/

/-- Embedding of `fnv1a_hash`: 64-bit FNV-1a over the UTF-8 bytes of the
string, with wrapping multiplication modelled by an explicit `% 2 ^ 64`. -/
def fnv1a_hash (value : String) : Nat :=
  (strBytes value).foldl
    (fun hash byte => ((hash ^^^ byte) * 0x100000001b3) % 2 ^ 64)
    0xcbf29ce484222325

/-- Rust `char::is_ascii_alphanumeric`. -/
def isAsciiAlphanumeric (c : Char) : Bool :=
  (48 ≤ c.toNat && c.toNat ≤ 57) || (65 ≤ c.toNat && c.toNat ≤ 90) ||
    (97 ≤ c.toNat && c.toNat ≤ 122)

/-- Rust `char::to_ascii_lowercase`. -/
def toAsciiLower (c : Char) : Char :=
  if 65 ≤ c.toNat && c.toNat ≤ 90 then Char.ofNat (c.toNat + 32) else c

/-- Loop body of `sanitize_name`: push lowercased ASCII alphanumerics,
collapse every other character into a single dash using the `last_dash`
flag. -/
def sanitizeCore : List Char → Bool → List Char
  | [], _ => []
  | ch :: rest, lastDash =>
    if isAsciiAlphanumeric ch then toAsciiLower ch :: sanitizeCore rest false
    else if lastDash then sanitizeCore rest true
    else '-' :: sanitizeCore rest true

/-- Rust `str::trim_matches('-')` on a character list. -/
def trimDashes (l : List Char) : List Char :=
  ((l.dropWhile (· = '-')).reverse.dropWhile (· = '-')).reverse

/-- Embedding of `sanitize_name`. -/
def sanitize_name (value : String) : String :=
  let trimmed := trimDashes (sanitizeCore value.data false)
  if trimmed.isEmpty then "repo" else ⟨trimmed⟩

/-- Lowercase hexadecimal digit for a value below 16. -/
def hexDigitChar (n : Nat) : Char :=
  if n < 10 then Char.ofNat (48 + n) else Char.ofNat (87 + n)

/-- Rust `format!("{:08x}", v)` for a 32-bit value: eight lowercase hex
digits with leading zeros. -/
def toHex8 (n : Nat) : String :=
  ⟨(List.range 8).map (fun i => hexDigitChar (n / 16 ^ (7 - i) % 16))⟩

/-- Split a character list on a separator character, mirroring
`str::split('/')`: every separator opens a new (possibly empty) group. -/
def splitOnChar (sep : Char) : List Char → List (List Char)
  | [] => [[]]
  | c :: rest =>
    match splitOnChar sep rest with
    | [] => [[]]
    | grp :: grps => if c = sep then [] :: grp :: grps else (c :: grp) :: grps

/-- Model of Rust `Path::file_name` on a string path: last normal
component, `none` for an empty/root path or one ending in `..`. Paths are
split on `/`; empty and `.` components are dropped as Rust's component
parser does. -/
def path_file_name (p : String) : Option String :=
  let comps := ((splitOnChar '/' p.data).map (fun cs => (⟨cs⟩ : String))).filter
    (fun c => c ≠ "" && c ≠ ".")
  match comps.getLast? with
  | none => none
  | some last => if last = ".." then none else some last

/-- The basename fallback `file_name().and_then(to_str).unwrap_or("repo")`
shared by `vm_name_for_repo` and the mount-target functions. -/
def path_basename (p : String) : String :=
  (path_file_name p).getD "repo"

/-- Embedding of `vm_name_for_repo`. -/
def vm_name_for_repo (p : String) : String :=
  "falck-" ++ sanitize_name (path_basename p) ++ "-" ++
    toHex8 (fnv1a_hash p % 2 ^ 32)

/-- Embedding of `lima_mount_target`. -/
def lima_mount_target (p : String) : String :=
  "/mnt/falck-" ++ sanitize_name (path_basename p) ++ "-" ++
    toHex8 (fnv1a_hash p % 2 ^ 32)

/-- Embedding of `lima_legacy_mount_target`. -/
def lima_legacy_mount_target (p : String) : String :=
  "/mnt/falck/" ++ sanitize_name (path_basename p) ++ "-" ++
    toHex8 (fnv1a_hash p % 2 ^ 32)

/-! ## Providers and yq configuration expressions -/

/-- The two providers (`VmProvider`): Lima is the POSIX VM provider, WSL
the Windows subsystem provider. -/
inductive VmProvider
  | lima
  | wsl
deriving DecidableEq, Repr

/-- Embedding of `lima_containerd_yq`. -/
def lima_containerd_yq : String :=
  ".containerd.system = true | .containerd.user = false"

/-- Model of `serde_json::to_string` on a string value (used by
`yq_quote`): double-quoted with JSON escaping of quote, backslash and
control characters. -/
def jsonEscapeChar (c : Char) : String :=
  if c = '"' then "\\\""
  else if c = '\\' then "\\\\"
  else if c = Char.ofNat 8 then "\\b"
  else if c = Char.ofNat 9 then "\\t"
  else if c = Char.ofNat 10 then "\\n"
  else if c = Char.ofNat 12 then "\\f"
  else if c = Char.ofNat 13 then "\\r"
  else if c.toNat < 32 then
    "\\u00" ++ ⟨[hexDigitChar (c.toNat / 16), hexDigitChar (c.toNat % 16)]⟩
  else String.singleton c

/-- Embedding of `yq_quote` (the serde_json success path; serialising a
string never fails, so the fallback branch is dead). -/
def yq_quote (value : String) : String :=
  "\"" ++ String.join (value.data.map jsonEscapeChar) ++ "\""

/-- Embedding of `lima_mounts_yq`. Literal braces of the Rust format
string are written with hex escapes. -/
def lima_mounts_yq (repoPath : String) : String :=
  let repoLocation := yq_quote (⟨repoPath.data.map (fun c => if c = '\\' then '/' else c)⟩)
  let repoMount := yq_quote (lima_mount_target repoPath)
  let homeLocation := yq_quote "~"
  ".mountInotify = true | .mounts = [\x7b\"location\": " ++ homeLocation ++
    "\x7d, \x7b\"location\": " ++ repoLocation ++ ", \"mountPoint\": " ++ repoMount ++
    ", \"writable\": true\x7d]"

/-- Embedding of `normalize_ports`: drop zero ports, then iterate the
`BTreeSet` in ascending order without duplicates. -/
def normalize_ports (ports : List Nat) : List Nat :=
  ((ports.filter (fun p => 0 < p)).insertionSort (· ≤ ·)).dedup

/-- One `portForwards` entry of `lima_port_forwards_yq`: guest and host
port are the same number. -/
def port_forward_entry (port : Nat) : String :=
  "\x7b\"guestPort\": " ++ toString port ++ ", \"hostPort\": " ++ toString port ++ "\x7d"

/-- Embedding of `lima_port_forwards_yq`. -/
def lima_port_forwards_yq (ports : List Nat) : Option String :=
  let ports := normalize_ports ports
  if ports.isEmpty then none
  else
    some (".portForwards = (.portForwards // []) + [" ++
      String.intercalate ", " (ports.map port_forward_entry) ++ "]")

/-! ## Windows subsystem path rewrite (`windows_path_to_wsl`) -/

/-- Rust `char::is_whitespace` (the Unicode White_Space property). -/
def isRustWhitespace (c : Char) : Bool :=
  let n := c.toNat
  (9 ≤ n && n ≤ 13) || n = 32 || n = 0x85 || n = 0xa0 || n = 0x1680 ||
    (0x2000 ≤ n && n ≤ 0x200a) || n = 0x2028 || n = 0x2029 || n = 0x202f ||
    n = 0x205f || n = 0x3000

/-- Rust `str::trim`: strip leading and trailing whitespace. -/
def rust_trim (s : String) : String :=
  ⟨((s.data.dropWhile isRustWhitespace).reverse.dropWhile isRustWhitespace).reverse⟩

/-- Rust `str::replace('\\', "/")`. -/
def replace_backslashes (s : String) : String :=
  ⟨s.data.map (fun c => if c = '\\' then '/' else c)⟩

/-- The byte test `trimmed.len() >= 2 && trimmed.as_bytes()[1] == b':'`
expressed on the character list: under UTF-8 the second byte is a colon
exactly when the first character is ASCII and the second character is
`':'` (a continuation byte of a multi-byte first character can never be
`0x3a`). -/
def second_byte_is_colon (cs : List Char) : Bool :=
  match cs with
  | c0 :: c1 :: _ => c0.toNat < 128 && c1 = ':'
  | _ => false

/-- Embedding of `windows_path_to_wsl`. The `trimmed[2..]` byte slice is
valid precisely because the first two characters are single-byte in the
drive branch, so it equals dropping two characters. -/
def windows_path_to_wsl (p : String) : String :=
  let trimmed := rust_trim p
  match trimmed.data with
  | c0 :: c1 :: rest =>
    if c0.toNat < 128 && c1 = ':' then
      let drive := toAsciiLower c0
      let restChars := (rest.map (fun c => if c = '\\' then '/' else c)).dropWhile (· = '/')
      if restChars.isEmpty then "/mnt/" ++ String.singleton drive
      else "/mnt/" ++ String.singleton drive ++ "/" ++ ⟨restChars⟩
    else replace_backslashes trimmed
  | _ => replace_backslashes trimmed

/-- Written from the claim text for comparison: "a trimmed path whose
second character is ':'" takes the drive rewrite, with no condition on
the first character. -/
def windows_path_to_wsl_claimed (p : String) : String :=
  let trimmed := rust_trim p
  match trimmed.data with
  | c0 :: c1 :: rest =>
    if c1 = ':' then
      let drive := toAsciiLower c0
      let restChars := (rest.map (fun c => if c = '\\' then '/' else c)).dropWhile (· = '/')
      if restChars.isEmpty then "/mnt/" ++ String.singleton drive
      else "/mnt/" ++ String.singleton drive ++ "/" ++ ⟨restChars⟩
    else replace_backslashes trimmed
  | _ => replace_backslashes trimmed

/-! ## Mount resolver (`resolve_repo_root`)

Guest filesystem probes are oracles indexed by the retry attempt number,
mirroring `path_exists_in_vm_with_retry` / `path_writable_in_vm_with_retry`
(up to 5 retries; the 700ms sleeps have no observable effect in the
model). The host `$HOME` lookup and the guest `get_vm_home` call are
further oracles. -/

/-- Guest filesystem state as seen by the `test -d` and write-probe shell
checks, indexed by path and retry attempt. -/
structure LimaGuest where
  dirExists : String → Nat → Bool
  dirWritable : String → Nat → Bool

/-- The `for attempt in 0..=retries` loop shape shared by both probe
helpers: succeed as soon as one attempt succeeds. -/
def probe_with_retry (probe : Nat → Bool) (retries : Nat) : Bool :=
  (List.range (retries + 1)).any probe

/-- Embedding of `path_exists_in_vm_with_retry` with the call-site
arguments `retries = 5`. -/
def path_exists_in_vm (g : LimaGuest) (path : String) : Bool :=
  probe_with_retry (g.dirExists path) 5

/-- Embedding of `path_writable_in_vm_with_retry` with the call-site
arguments `retries = 5`. -/
def path_writable_in_vm (g : LimaGuest) (path : String) : Bool :=
  probe_with_retry (g.dirWritable path) 5

/-- The read-only-mount error of `resolve_repo_root`, naming the
delete-and-recreate remediation. -/
def read_only_mount_msg (name : String) : String :=
  "The VM mount for this repo is read-only. Use Settings > Reset VM (or `limactl delete " ++
    name ++ "`) and try again."

/-- The not-mounted error of `resolve_repo_root`. -/
def not_mounted_msg (name : String) : String :=
  "The repo path is not mounted inside the VM. Use Settings > Reset VM (or `limactl delete " ++
    name ++ "`) and try again."

/-- Path components for the `Path::starts_with` / `strip_prefix` pair:
split on `/`, dropping empty and `.` components as Rust's component
parser does. -/
def path_components (p : String) : List String :=
  ((splitOnChar '/' p.data).map (fun cs => (⟨cs⟩ : String))).filter
    (fun c => c ≠ "" && c ≠ ".")

/-- Model of `Path::starts_with` by component-wise comparison. -/
def path_starts_with (p base : String) : Bool :=
  (path_components base).isPrefixOf (path_components p)

/-- Model of `strip_prefix(&home)` followed by `to_string_lossy`: the
components of `p` after the home components, rejoined with `/`. -/
def path_rel_to (p base : String) : String :=
  String.intercalate "/" ((path_components p).drop (path_components base).length)

/-- Embedding of `join_unix`. -/
def join_unix (base rel : String) : String :=
  let baseTrimmed : String := ⟨(base.data.reverse.dropWhile (· = '/')).reverse⟩
  let relTrimmed : String := ⟨rel.data.dropWhile (· = '/')⟩
  if relTrimmed = "" then baseTrimmed else baseTrimmed ++ "/" ++ relTrimmed

/-- The trailing literal-host-path candidate of the Lima branch of
`resolve_repo_root` (reached whenever the home-relative branch does not
return). -/
def try_host_literal (g : LimaGuest) (name hostPath : String) : Except String String :=
  if path_exists_in_vm g hostPath then
    if !path_writable_in_vm g hostPath then Except.error (read_only_mount_msg name)
    else Except.ok hostPath
  else Except.error (not_mounted_msg name)

/-- Embedding of the Lima branch of `resolve_repo_root`. `hostHome` is
the host `HOME` environment variable; `vmHome` is the outcome of
`get_vm_home` (whose error propagates through the `?` operator). -/
def resolve_repo_root_lima (g : LimaGuest) (hostHome : Option String)
    (vmHome : Except String String) (name p : String) : Except String String :=
  let preferred := lima_mount_target p
  if path_exists_in_vm g preferred then
    if !path_writable_in_vm g preferred then Except.error (read_only_mount_msg name)
    else Except.ok preferred
  else
    let legacy := lima_legacy_mount_target p
    if path_exists_in_vm g legacy then
      if !path_writable_in_vm g legacy then Except.error (read_only_mount_msg name)
      else Except.ok legacy
    else
      let hostPath := replace_backslashes p
      match hostHome with
      | some home =>
        if path_starts_with p home then
          match vmHome with
          | Except.error e => Except.error e
          | Except.ok vh =>
            let candidate := join_unix vh (replace_backslashes (path_rel_to p home))
            if path_exists_in_vm g candidate then
              if !path_writable_in_vm g candidate then
                Except.error (read_only_mount_msg name)
              else Except.ok candidate
            else try_host_literal g name hostPath
        else try_host_literal g name hostPath
      | none => try_host_literal g name hostPath

/-- Embedding of `resolve_repo_root`: the WSL branch is the pure
syntactic rewrite, the Lima branch probes the guest. -/
def resolve_repo_root (provider : VmProvider) (g : LimaGuest)
    (hostHome : Option String) (vmHome : Except String String)
    (name p : String) : Except String String :=
  match provider with
  | VmProvider.wsl => Except.ok (windows_path_to_wsl p)
  | VmProvider.lima => resolve_repo_root_lima g hostHome vmHome name p

/-- The home-relative candidate, when it is built at all. -/
def home_candidate (vh : String) (p home : String) : String :=
  join_unix vh (replace_backslashes (path_rel_to p home))

/-- Proposition: the home-relative branch of `resolve_repo_root` does
not return, either because it is not entered (no host home, or the repo
is not under it) or because the guest home is known and the candidate
does not exist. -/
def home_candidate_missing (g : LimaGuest) (hostHome : Option String)
    (vmHome : Except String String) (p : String) : Prop :=
  ∀ home, hostHome = some home → path_starts_with p home = true →
    ∃ vh, vmHome = Except.ok vh ∧ path_exists_in_vm g (home_candidate vh p home) = false

/-! ## Process executor (`spawn_with_timeout`, `spawn_capture_with_timeout`)

A child process is an oracle: whether the spawn failed, at which poll
iteration `try_wait` first observes an exit (one iteration per 200ms
sleep), the exit status, and the raw bytes of the two output streams.
The function result is paired with a flag recording whether `kill` was
invoked. -/

/-- Model of `std::process::ExitStatus`. -/
structure ExitSt where
  success : Bool
  code : Option Int
deriving DecidableEq, Repr

/-- A child process as observed by the executor. `exitsAt = some k`
means `try_wait` reports the exit status from poll iteration `k` on;
`none` means the child never exits. -/
structure ChildProc where
  spawnErr : Option String
  exitsAt : Option Nat
  exitStatus : ExitSt
  stdoutBytes : List Nat
  stderrBytes : List Nat

/-- Has the child exited by poll iteration `k`? -/
def exited_by (exitsAt : Option Nat) (k : Nat) : Bool :=
  match exitsAt with
  | some e => e ≤ k
  | none => false

/-- The timeout error message, naming the configured timeout in
seconds. -/
def timeout_msg (t : Nat) : String :=
  "Command timed out after " ++ toString t ++ " seconds"

/-- The poll loop of both spawn helpers: at iteration `k` first
`try_wait`, then compare the elapsed time (`200 * k` ms after `k`
sleeps) against the deadline (`1000 * t` ms), then sleep and repeat. The
fuel argument only forces termination; `5 * t + 2` units always
suffice. -/
def poll_loop (exitsAt : Option Nat) (st : ExitSt) (t : Nat) :
    Nat → Nat → Except String ExitSt × Bool
  | 0, _ => (Except.error (timeout_msg t), true)
  | fuel + 1, k =>
    if exited_by exitsAt k then (Except.ok st, false)
    else if 200 * k > 1000 * t then (Except.error (timeout_msg t), true)
    else poll_loop exitsAt st t fuel (k + 1)

/-- Embedding of `spawn_with_timeout`; the boolean records whether the
child was killed. Without a timeout the call blocks in `wait`; the model
covers that branch only for children that exit. -/
def spawn_with_timeout (c : ChildProc) (timeoutSecs : Option Nat) :
    Except String ExitSt × Bool :=
  match c.spawnErr with
  | some e => (Except.error ("Failed to spawn command: " ++ e), false)
  | none =>
    match timeoutSecs with
    | some t => poll_loop c.exitsAt c.exitStatus t (5 * t + 2) 0
    | none => (Except.ok c.exitStatus, false)

/-- Is a byte a UTF-8 continuation byte? -/
def isCont (b : Nat) : Bool :=
  0x80 ≤ b && b ≤ 0xbf

/-- Valid second byte for a three-byte sequence with lead `b`. -/
def cont3Ok (b b1 : Nat) : Bool :=
  if b = 0xe0 then 0xa0 ≤ b1 && b1 ≤ 0xbf
  else if b = 0xed then 0x80 ≤ b1 && b1 ≤ 0x9f
  else isCont b1

/-- Valid second byte for a four-byte sequence with lead `b`. -/
def cont4Ok (b b1 : Nat) : Bool :=
  if b = 0xf0 then 0x90 ≤ b1 && b1 ≤ 0xbf
  else if b = 0xf4 then 0x80 ≤ b1 && b1 ≤ 0x8f
  else isCont b1

/-- The replacement character U+FFFD. -/
def replChar : Char :=
  Char.ofNat 0xfffd

/-- Model of `String::from_utf8_lossy`: decode well-formed sequences and
replace each maximal subpart of an ill-formed subsequence with U+FFFD,
as the Rust implementation does. The fuel argument makes the recursion
structural; one unit per decoded unit always suffices because every
step consumes at least one byte. -/
def utf8_lossy_go : Nat → List Nat → List Char
  | _, [] => []
  | 0, _ :: _ => []
  | fuel + 1, b :: rest =>
    if b < 0x80 then Char.ofNat b :: utf8_lossy_go fuel rest
    else if 0xc2 ≤ b && b ≤ 0xdf then
      match rest with
      | [] => [replChar]
      | b1 :: rest1 =>
        if isCont b1 then
          Char.ofNat ((b - 0xc0) * 64 + (b1 - 0x80)) :: utf8_lossy_go fuel rest1
        else replChar :: utf8_lossy_go fuel rest
    else if 0xe0 ≤ b && b ≤ 0xef then
      match rest with
      | [] => [replChar]
      | b1 :: rest1 =>
        if cont3Ok b b1 then
          match rest1 with
          | [] => [replChar]
          | b2 :: rest2 =>
            if isCont b2 then
              Char.ofNat ((b - 0xe0) * 4096 + (b1 - 0x80) * 64 + (b2 - 0x80)) ::
                utf8_lossy_go fuel rest2
            else replChar :: utf8_lossy_go fuel rest1
        else replChar :: utf8_lossy_go fuel rest
    else if 0xf0 ≤ b && b ≤ 0xf4 then
      match rest with
      | [] => [replChar]
      | b1 :: rest1 =>
        if cont4Ok b b1 then
          match rest1 with
          | [] => [replChar]
          | b2 :: rest2 =>
            if isCont b2 then
              match rest2 with
              | [] => [replChar]
              | b3 :: rest3 =>
                if isCont b3 then
                  Char.ofNat ((b - 0xf0) * 262144 + (b1 - 0x80) * 4096 +
                      (b2 - 0x80) * 64 + (b3 - 0x80)) :: utf8_lossy_go fuel rest3
                else replChar :: utf8_lossy_go fuel rest2
            else replChar :: utf8_lossy_go fuel rest1
        else replChar :: utf8_lossy_go fuel rest
    else replChar :: utf8_lossy_go fuel rest

/-- Decoded character list of a byte list. -/
def utf8_lossy_chars (l : List Nat) : List Char :=
  utf8_lossy_go l.length l

/-- Permissive decoding of captured output bytes. -/
def utf8_lossy (l : List Nat) : String :=
  ⟨utf8_lossy_chars l⟩

/-- Embedding of `spawn_capture_with_timeout`: same spawn handling and
poll loop, returning the exit status together with both streams decoded
permissively. -/
def spawn_capture_with_timeout (c : ChildProc) (timeoutSecs : Option Nat) :
    Except String (ExitSt × String × String) × Bool :=
  match c.spawnErr with
  | some e => (Except.error ("Failed to spawn command: " ++ e), false)
  | none =>
    match timeoutSecs with
    | some t =>
      match poll_loop c.exitsAt c.exitStatus t (5 * t + 2) 0 with
      | (Except.ok st, k) =>
        (Except.ok (st, utf8_lossy c.stdoutBytes, utf8_lossy c.stderrBytes), k)
      | (Except.error e, k) => (Except.error e, k)
    | none =>
      (Except.ok (c.exitStatus, utf8_lossy c.stdoutBytes, utf8_lossy c.stderrBytes), false)

/-! ## Guest bootstrap (`ensure_vm_bootstrap`)

The guest script execution is an oracle with the shape of
`spawn_capture_with_timeout`'s result; `limaLogs` is the outcome of
`lima_debug_logs` (`none` when no log file was found). -/

/-- Rust `i32` exit code display used in the bootstrap error. -/
def exit_code_text (st : ExitSt) : String :=
  match st.code with
  | some c => toString c
  | none => "unknown"

/-- The byte-count-and-exit-code summary of a bootstrap failure with
empty combined output. -/
def bootstrap_empty_output_msg (st : ExitSt) (stdout stderr : String) : String :=
  "Failed to install required VM packages (exit " ++ exit_code_text st ++
    ", stdout " ++ toString (byteLen stdout) ++ " bytes, stderr " ++
    toString (byteLen stderr) ++ " bytes)."

/-- Embedding of `ensure_vm_bootstrap`. The function returns `Ok`
immediately for the Lima provider; only the WSL provider runs the guest
script. The `provider == Lima` test guarding the log attachment is kept
exactly as in the source even though it can never hold at that point. -/
def ensure_vm_bootstrap (provider : VmProvider)
    (run : Except String (ExitSt × String × String))
    (limaLogs : Option String) : Except String Unit :=
  if provider = VmProvider.lima then Except.ok ()
  else
    match run with
    | Except.error e => Except.error ("Failed to bootstrap VM packages: " ++ e)
    | Except.ok (st, stdout, stderr) =>
      if st.success then Except.ok ()
      else
        let combined := rust_trim (rust_trim stdout ++ "\n" ++ rust_trim stderr)
        if combined = "" then
          let message := bootstrap_empty_output_msg st stdout stderr
          let message :=
            if provider = VmProvider.lima then
              match limaLogs with
              | some logs => message ++ "\n\nLima logs:\n" ++ logs
              | none => message ++ "\n\nLima logs: (none found)"
            else message
          Except.error message
        else Except.error combined

/-! ## Port-forward reconciler (`ensure_vm_port_forwards`)

VM mutations are recorded in an action trace; the persisted guest-port
set read by `lima_forwarded_ports` and the outcomes of the stop, start,
readiness and bootstrap operations are oracles. Status events are pure
notifications and are not traced. -/

/-- VM mutations that `ensure_vm_port_forwards` can perform. -/
inductive PfAction
  | stopVm (name : String)
  | startVm (name : String) (sets : List String)
  | waitReady (name : String) (timeoutSecs : Nat)
  | runBootstrap (name : String)
deriving DecidableEq, Repr

/-- Oracles for one `ensure_vm_port_forwards` call: the forwarded guest
ports found in the persisted instance configuration, and the results of
the restart pipeline stages. -/
structure PfEnv where
  existing : List Nat
  startResult : Except String Unit
  waitResult : Except String Unit
  bootstrapResult : Except String Unit

/-- The `--set` expressions `limactl_start` passes, in order: containerd
config, mounts for the repo path, and the port-forward append expression
when ports were requested. -/
def limactl_start_sets (repoPath : String) (portForwards : Option (List Nat)) :
    List String :=
  [lima_containerd_yq, lima_mounts_yq repoPath] ++
    (match portForwards with
     | some ports =>
       match lima_port_forwards_yq ports with
       | some expr => [expr]
       | none => []
     | none => [])

/-- Embedding of `ensure_vm_port_forwards`, returning the result paired
with the trace of VM mutations. The stop result is discarded by the
source (`let _ = stop_vm_inner(..)`), so only its occurrence is traced.
The `provider != Lima` re-bootstrap guard is kept as in the source even
though the function already returned for non-Lima providers. -/
def ensure_vm_port_forwards (provider : VmProvider) (name repoPath : String)
    (env : PfEnv) (ports : List Nat) : Except String Unit × List PfAction :=
  if provider ≠ VmProvider.lima then (Except.ok (), [])
  else
    let desired := normalize_ports ports
    if desired.isEmpty then (Except.ok (), [])
    else
      let missing := desired.filter (fun port => !env.existing.contains port)
      if missing.isEmpty then (Except.ok (), [])
      else
        let trace := [PfAction.stopVm name,
          PfAction.startVm name (limactl_start_sets repoPath (some missing))]
        match env.startResult with
        | Except.error e => (Except.error e, trace)
        | Except.ok () =>
          let trace := trace ++ [PfAction.waitReady name 90]
          match env.waitResult with
          | Except.error e => (Except.error e, trace)
          | Except.ok () =>
            if provider ≠ VmProvider.lima then
              let trace := trace ++ [PfAction.runBootstrap name]
              match env.bootstrapResult with
              | Except.error e => (Except.error e, trace)
              | Except.ok () => (Except.ok (), trace)
            else (Except.ok (), trace)

/-! ## Backend resolver (`resolve_backend`) -/

/-- Persisted backend mode. -/
inductive BackendMode
  | host
  | virtualized
deriving DecidableEq, Repr

/-- Model of `VmContext` as populated by `resolve_backend`. -/
structure VmContextM where
  provider : VmProvider
  name : String
  repo_path : String
  repo_root : String
  vm_repo_root : String
deriving DecidableEq, Repr

/-- Model of `BackendContext`. -/
structure BackendContextM where
  mode : BackendMode
  vm : Option VmContextM
deriving DecidableEq, Repr

/-- External operations `resolve_backend` can invoke. The source of
`resolve_backend` contains no stop or delete call; the constructors for
those mutations exist so that their absence from every trace is a
statable property. -/
inductive RbAction
  | ensureRunning
  | resolveMount
  | stopVmOp (name : String)
  | deleteVmOp (name : String)
deriving DecidableEq, Repr

/-- Embedding of `resolve_backend`: read the persisted mode, return a
host context immediately for Host mode, otherwise ensure the VM is
running (oracle `ensureResult`) and resolve the in-guest repo root,
building the `VmContext` only when both succeed. -/
def resolve_backend (mode : BackendMode) (provider : VmProvider)
    (ensureResult : Except String String) (g : LimaGuest)
    (hostHome : Option String) (vmHome : Except String String)
    (p : String) : Except String BackendContextM × List RbAction :=
  if mode = BackendMode.host then
    (Except.ok { mode := BackendMode.host, vm := none }, [])
  else
    match ensureResult with
    | Except.error e => (Except.error e, [RbAction.ensureRunning])
    | Except.ok vmName =>
      match resolve_repo_root provider g hostHome vmHome vmName p with
      | Except.error e => (Except.error e, [RbAction.ensureRunning, RbAction.resolveMount])
      | Except.ok root =>
        (Except.ok { mode := mode,
                     vm := some { provider := provider, name := vmName,
                                  repo_path := p, repo_root := root,
                                  vm_repo_root := root } },
         [RbAction.ensureRunning, RbAction.resolveMount])

/-! ## Single-flight registry (`EnsureInFlight`, `ensure_vm_running`)

Every access to the `VM_ENSURE_INFLIGHT` registry and to an
`EnsureInFlight` record happens under a mutex, so any concurrent
execution is an interleaving of atomic events. The model fixes one
repo-path key and replays such an interleaving over an explicit state:
`arrive` is the registry check-or-insert (the first caller creates the
record and becomes leader, later callers join it as followers),
`compute` is the leader's `ensure_vm_running_inner` call (`res k` is the
result of the k-th execution), `publish` is `EnsureInFlight::finish`,
`removeEntry` is the registry removal directly after it, and `observe`
is a follower's condition-variable wakeup on a published record. Lock
poisoning is outside the model. -/

/-- Result type of `ensure_vm_running`: VM name or error string. -/
abbrev SfResult := Except String String

/-- Where a single caller is in `ensure_vm_running`. -/
inductive TSt
  | tInit
  | tFollower (eid : Nat)
  | tLeadCompute (eid : Nat)
  | tLeadPublish (eid : Nat) (r : SfResult)
  | tLeadRemove (eid : Nat) (r : SfResult)
  | tDone (r : SfResult)
deriving Repr

/-- State of one `EnsureInFlight` record. -/
inductive EntrySt
  | running
  | done (r : SfResult)
deriving Repr

/-- Global state: the registry slot for the key, every record ever
created (index = id), the callers, and how many times the leader-side
create/start/bootstrap sequence has run. -/
structure SfState where
  reg : Option Nat
  entries : List EntrySt
  threads : List TSt
  execCount : Nat
deriving Repr

/-- Atomic events of the single-flight protocol, tagged with the acting
caller. -/
inductive SfAction
  | arrive (t : Nat)
  | compute (t : Nat)
  | publish (t : Nat)
  | removeEntry (t : Nat)
  | observe (t : Nat)
deriving DecidableEq, Repr

/-- One atomic event. `none` means the event is not enabled (the caller
is not at that point of the code, or a follower's wait would still
block). -/
def sf_step (res : Nat → SfResult) (s : SfState) (a : SfAction) : Option SfState :=
  match a with
  | SfAction.arrive t =>
    match s.threads[t]? with
    | some TSt.tInit =>
      match s.reg with
      | none =>
        let eid := s.entries.length
        some { s with reg := some eid,
                      entries := s.entries ++ [EntrySt.running],
                      threads := s.threads.set t (TSt.tLeadCompute eid) }
      | some eid =>
        some { s with threads := s.threads.set t (TSt.tFollower eid) }
    | _ => none
  | SfAction.compute t =>
    match s.threads[t]? with
    | some (TSt.tLeadCompute eid) =>
      some { s with execCount := s.execCount + 1,
                    threads := s.threads.set t (TSt.tLeadPublish eid (res s.execCount)) }
    | _ => none
  | SfAction.publish t =>
    match s.threads[t]? with
    | some (TSt.tLeadPublish eid r) =>
      some { s with entries := s.entries.set eid (EntrySt.done r),
                    threads := s.threads.set t (TSt.tLeadRemove eid r) }
    | _ => none
  | SfAction.removeEntry t =>
    match s.threads[t]? with
    | some (TSt.tLeadRemove _ r) =>
      some { s with reg := none,
                    threads := s.threads.set t (TSt.tDone r) }
    | _ => none
  | SfAction.observe t =>
    match s.threads[t]? with
    | some (TSt.tFollower eid) =>
      match s.entries[eid]? with
      | some (EntrySt.done r) =>
        some { s with threads := s.threads.set t (TSt.tDone r) }
      | _ => none
    | _ => none

/-- Replay a sequence of events. -/
def sf_run (res : Nat → SfResult) (s : SfState) (acts : List SfAction) :
    Option SfState :=
  acts.foldlM (sf_step res) s

/-- Initial state for `n` callers of the same key. -/
def sf_init (n : Nat) : SfState :=
  { reg := none, entries := [], threads := List.replicate n TSt.tInit, execCount := 0 }

/-- Is the event an `arrive`? -/
def isArrive : SfAction → Bool
  | SfAction.arrive _ => true
  | _ => false

/-- Is the event a registry removal? -/
def isRemove : SfAction → Bool
  | SfAction.removeEntry _ => true
  | _ => false

/-- The trace property expressing that the calls are concurrent: every
caller reaches the registry before the leader removes the record, so no
`arrive` event follows a `removeEntry` event. -/
def arrivals_before_removals : List SfAction → Bool
  | [] => true
  | a :: rest =>
    (if isRemove a then rest.all (fun x => !isArrive x) else true) &&
      arrivals_before_removals rest

/-- Is the caller in one of the leader stages? -/
def isLeaderSt : TSt → Bool
  | TSt.tLeadCompute _ => true
  | TSt.tLeadPublish _ _ => true
  | TSt.tLeadRemove _ _ => true
  | _ => false

/-- Per-caller invariant, relative to the global state. -/
def TInv (res : Nat → SfResult) (s : SfState) : TSt → Prop
  | TSt.tInit => True
  | TSt.tFollower e => e = 0 ∧ s.entries.length = 1
  | TSt.tLeadCompute e =>
      e = 0 ∧ s.execCount = 0 ∧ s.entries[0]? = some EntrySt.running ∧
        s.reg = some 0
  | TSt.tLeadPublish e r =>
      e = 0 ∧ s.execCount = 1 ∧ r = res 0 ∧
        s.entries[0]? = some EntrySt.running ∧ s.reg = some 0
  | TSt.tLeadRemove e r =>
      e = 0 ∧ s.execCount = 1 ∧ r = res 0 ∧
        s.entries[0]? = some (EntrySt.done (res 0)) ∧ s.reg = some 0
  | TSt.tDone r => r = res 0

/-- Global invariant of the single-flight protocol for one key, over
traces whose arrivals all precede the removal. -/
def SfInv (res : Nat → SfResult) (s : SfState) : Prop :=
  s.entries.length ≤ 1 ∧
  (s.reg = none ∨ s.reg = some 0) ∧
  (s.reg = some 0 → s.entries.length = 1) ∧
  (s.entries.length = 0 →
    s.reg = none ∧ s.execCount = 0 ∧
      ∀ (t : Nat) (st : TSt), s.threads[t]? = some st → st = TSt.tInit) ∧
  (∀ (t : Nat) (st : TSt), s.threads[t]? = some st → TInv res s st) ∧
  (s.entries.length = 1 →
    ((∃ (t e : Nat), s.threads[t]? = some (TSt.tLeadCompute e)) → s.execCount = 0) ∧
    ((¬ ∃ (t e : Nat), s.threads[t]? = some (TSt.tLeadCompute e)) → s.execCount = 1)) ∧
  (s.reg = some 0 →
    ∃ (t : Nat) (st : TSt), s.threads[t]? = some st ∧ isLeaderSt st = true) ∧
  (∀ (t₁ t₂ : Nat) (st₁ st₂ : TSt), s.threads[t₁]? = some st₁ → s.threads[t₂]? = some st₂ →
    isLeaderSt st₁ = true → isLeaderSt st₂ = true → t₁ = t₂) ∧
  (∀ r, s.entries[0]? = some (EntrySt.done r) → r = res 0)

/-! ## General helper lemmas -/

theorem string_append_assoc (a b c : String) : a ++ b ++ c = a ++ (b ++ c) := by
  apply String.ext
  show (a ++ b ++ c).data = (a ++ (b ++ c)).data
  simp [String.data_append, List.append_assoc]

theorem char_toNat_ofNat {n : Nat} (h : n < 0xd800) : (Char.ofNat n).toNat = n := by
  have hv : n.isValidChar := Or.inl h
  simp [Char.ofNat, dif_pos hv, Char.ofNatAux, Char.toNat, UInt32.toNat,
    BitVec.toNat_ofNatLt]

theorem char_eq_iff_toNat {c d : Char} : c = d ↔ c.toNat = d.toNat := by
  constructor
  · intro h; rw [h]
  · intro h
    apply Char.eq_of_val_eq
    apply UInt32.eq_of_toBitVec_eq
    apply BitVec.eq_of_toNat_eq
    exact h

/-! ## C10: the preferred mount target is "/mnt/" ++ the VM name -/

/-- C10: for every repository path, the preferred Lima mount target is
exactly "/mnt/" followed by the VM name generated for that path, so both
share the same sanitized basename and the same 8-hex-digit hash
suffix. -/
theorem lima_mount_target_eq_mnt_vm_name (p : String) :
    lima_mount_target p = "/mnt/" ++ vm_name_for_repo p := by
  unfold lima_mount_target vm_name_for_repo
  rw [show ("/mnt/falck-" : String) = "/mnt/" ++ "falck-" from rfl]
  simp only [string_append_assoc]

/-! ## C3: vm_name_for_repo is deterministic and has the documented shape -/

/-- Ascii uppercase test used to state "lowercased". -/
def isAsciiUpper (c : Char) : Bool :=
  65 ≤ c.toNat && c.toNat ≤ 90

/-- Characters of a lowercase hex rendering. -/
def isHexLowerChar (c : Char) : Bool :=
  (48 ≤ c.toNat && c.toNat ≤ 57) || (97 ≤ c.toNat && c.toNat ≤ 102)

/-- Well-formedness of a sanitized basename as the spec describes it:
nonempty, only lowercase ASCII alphanumerics and dashes, no dash at
either end, and no two adjacent dashes (so every run of disallowed
characters has been collapsed to a single dash). -/
def sanitizedShape (s : String) : Prop :=
  s.data ≠ [] ∧
  (∀ c ∈ s.data, (isAsciiAlphanumeric c = true ∧ isAsciiUpper c = false) ∨ c = '-') ∧
  s.data.head? ≠ some '-' ∧
  s.data.getLast? ≠ some '-' ∧
  s.data.Chain' (fun a b => ¬(a = '-' ∧ b = '-'))

theorem toAsciiLower_alnum {c : Char} (h : isAsciiAlphanumeric c = true) :
    isAsciiAlphanumeric (toAsciiLower c) = true ∧ isAsciiUpper (toAsciiLower c) = false := by
  simp only [isAsciiAlphanumeric, Bool.or_eq_true, Bool.and_eq_true,
    decide_eq_true_eq] at h
  unfold toAsciiLower
  by_cases hc : 65 ≤ c.toNat ∧ c.toNat ≤ 90
  · rw [if_pos (by simp only [Bool.and_eq_true, decide_eq_true_eq]; exact hc)]
    have hth : (Char.ofNat (c.toNat + 32)).toNat = c.toNat + 32 :=
      char_toNat_ofNat (by omega)
    constructor
    · simp only [isAsciiAlphanumeric, hth, Bool.or_eq_true, Bool.and_eq_true,
        decide_eq_true_eq]
      omega
    · simp only [isAsciiUpper, hth, Bool.and_eq_false_iff, decide_eq_false_iff_not]
      omega
  · rw [if_neg (by simp only [Bool.and_eq_true, decide_eq_true_eq]; exact hc)]
    constructor
    · simp only [isAsciiAlphanumeric, Bool.or_eq_true, Bool.and_eq_true,
        decide_eq_true_eq]
      omega
    · simp only [isAsciiUpper, Bool.and_eq_false_iff, decide_eq_false_iff_not]
      omega

theorem toAsciiLower_ne_dash {c : Char} (h : isAsciiAlphanumeric c = true) :
    toAsciiLower c ≠ '-' := by
  have halnum := (toAsciiLower_alnum h).1
  intro heq
  rw [heq] at halnum
  exact absurd halnum (by decide)

theorem sanitizeCore_mem :
    ∀ (l : List Char) (b : Bool) (c : Char), c ∈ sanitizeCore l b →
      (isAsciiAlphanumeric c = true ∧ isAsciiUpper c = false) ∨ c = '-' := by
  intro l
  induction l with
  | nil => intro b c h; simp [sanitizeCore] at h
  | cons ch rest ih =>
    intro b c h
    unfold sanitizeCore at h
    by_cases ha : isAsciiAlphanumeric ch = true
    · rw [if_pos ha] at h
      rcases List.mem_cons.mp h with h | h
      · exact Or.inl (h ▸ toAsciiLower_alnum ha)
      · exact ih false c h
    · rw [if_neg ha] at h
      by_cases hb : b = true
      · rw [hb, if_pos rfl] at h
        exact ih true c h
      · have hb' : b = false := by
          cases b
          · rfl
          · exact absurd rfl hb
        rw [hb', if_neg (by simp)] at h
        rcases List.mem_cons.mp h with h | h
        · exact Or.inr h
        · exact ih true c h

theorem sanitizeCore_true_head :
    ∀ (l : List Char) (c : Char), (sanitizeCore l true).head? = some c → c ≠ '-' := by
  intro l
  induction l with
  | nil => intro c h; simp [sanitizeCore] at h
  | cons ch rest ih =>
    intro c h
    unfold sanitizeCore at h
    by_cases ha : isAsciiAlphanumeric ch = true
    · rw [if_pos ha] at h
      simp only [List.head?_cons, Option.some_inj] at h
      exact h ▸ toAsciiLower_ne_dash ha
    · rw [if_neg ha, if_pos rfl] at h
      exact ih c h

theorem sanitizeCore_chain :
    ∀ (l : List Char) (b : Bool),
      (sanitizeCore l b).Chain' (fun a c => ¬(a = '-' ∧ c = '-')) := by
  intro l
  induction l with
  | nil => intro b; simp [sanitizeCore]
  | cons ch rest ih =>
    intro b
    unfold sanitizeCore
    by_cases ha : isAsciiAlphanumeric ch = true
    · rw [if_pos ha]
      rw [List.chain'_cons']
      refine ⟨?_, ih false⟩
      intro y _ hcontra
      exact toAsciiLower_ne_dash ha hcontra.1
    · rw [if_neg ha]
      by_cases hb : b = true
      · rw [hb, if_pos rfl]
        exact ih true
      · have hb' : b = false := by
          cases b
          · rfl
          · exact absurd rfl hb
        rw [hb', if_neg (by simp)]
        rw [List.chain'_cons']
        refine ⟨?_, ih true⟩
        intro y hy hcontra
        exact sanitizeCore_true_head rest y hy hcontra.2

theorem head?_dropWhile_not {α : Type} (p : α → Bool) :
    ∀ (l : List α) (c : α), ((l.dropWhile p).head? = some c) → p c = false := by
  intro l
  induction l with
  | nil => intro c h; simp [List.dropWhile] at h
  | cons x rest ih =>
    intro c h
    rw [List.dropWhile_cons] at h
    by_cases hx : p x = true
    · rw [if_pos hx] at h
      exact ih c h
    · rw [if_neg hx] at h
      simp only [List.head?_cons, Option.some_inj] at h
      rw [← h]
      exact Bool.eq_false_iff.mpr hx

theorem trimDashes_head_not_dash {l : List Char} {c : Char}
    (h : (trimDashes l).head? = some c) : c ≠ '-' := by
  unfold trimDashes at h
  rw [List.head?_reverse] at h
  obtain ⟨t, ht⟩ := List.dropWhile_suffix (l := (l.dropWhile (· = '-')).reverse) (· = '-')
  have hy : ((l.dropWhile (· = '-')).reverse.dropWhile (· = '-')).getLast? = some c := h
  have hm : ((l.dropWhile (· = '-')).reverse).getLast? = some c := by
    rw [← ht, List.getLast?_append, hy]
    rfl
  rw [List.getLast?_reverse] at hm
  have := head?_dropWhile_not (fun x => x = '-') l c hm
  simpa using this

theorem trimDashes_getLast_not_dash {l : List Char} {c : Char}
    (h : (trimDashes l).getLast? = some c) : c ≠ '-' := by
  unfold trimDashes at h
  rw [List.getLast?_reverse] at h
  have := head?_dropWhile_not (fun x => x = '-') (l.dropWhile (· = '-')).reverse c h
  simpa using this

theorem trimDashes_subset {l : List Char} {c : Char} (h : c ∈ trimDashes l) : c ∈ l := by
  unfold trimDashes at h
  rw [List.mem_reverse] at h
  have h1 := (List.dropWhile_suffix (· = '-')).sublist.mem h
  rw [List.mem_reverse] at h1
  exact (List.dropWhile_suffix (· = '-')).sublist.mem h1

theorem trimDashes_chain {l : List Char}
    (h : l.Chain' (fun a b => ¬(a = '-' ∧ b = '-'))) :
    (trimDashes l).Chain' (fun a b => ¬(a = '-' ∧ b = '-')) := by
  unfold trimDashes
  have h1 : (l.dropWhile (· = '-')).Chain' (fun a b => ¬(a = '-' ∧ b = '-')) :=
    h.suffix (List.dropWhile_suffix _)
  have h2 : ((l.dropWhile (· = '-')).reverse).Chain' (fun a b => ¬(b = '-' ∧ a = '-')) := by
    rw [List.chain'_reverse]
    exact h1
  have h3 : (((l.dropWhile (· = '-')).reverse.dropWhile (· = '-'))).Chain'
      (fun a b => ¬(b = '-' ∧ a = '-')) :=
    h2.suffix (List.dropWhile_suffix _)
  rw [List.chain'_reverse]
  exact h3

theorem sanitize_name_shape (v : String) :
    sanitizedShape (sanitize_name v) ∧
      (trimDashes (sanitizeCore v.data false) = [] → sanitize_name v = "repo") := by
  unfold sanitize_name
  by_cases he : (trimDashes (sanitizeCore v.data false)).isEmpty = true
  · rw [if_pos he]
    constructor
    · refine ⟨by decide, ?_, by decide, by decide, ?_⟩
      · intro c hc
        fin_cases hc <;> simp [isAsciiAlphanumeric, isAsciiUpper]
      · show List.Chain' _ "repo".data
        rw [show "repo".data = ['r', 'e', 'p', 'o'] from rfl]
        exact List.Chain'.cons (by decide) (List.Chain'.cons (by decide)
          (List.Chain'.cons (by decide) (List.chain'_singleton _)))
    · intro _; rfl
  · rw [if_neg he]
    have hne : trimDashes (sanitizeCore v.data false) ≠ [] := by
      intro hc
      rw [hc] at he
      exact he rfl
    constructor
    · refine ⟨hne, ?_, ?_, ?_, ?_⟩
      · intro c hc
        exact sanitizeCore_mem v.data false c (trimDashes_subset hc)
      · intro hc
        exact trimDashes_head_not_dash hc rfl
      · intro hc
        exact trimDashes_getLast_not_dash hc rfl
      · exact trimDashes_chain (sanitizeCore_chain v.data false)
    · intro hc
      exact absurd hc hne

theorem toHex8_length (n : Nat) : (toHex8 n).length = 8 := by
  simp [toHex8, String.length]

theorem toHex8_chars (n : Nat) : ∀ c ∈ (toHex8 n).data, isHexLowerChar c = true := by
  intro c hc
  simp only [toHex8, List.mem_map, List.mem_range] at hc
  obtain ⟨i, _, hi⟩ := hc
  have hlt : n / 16 ^ (7 - i) % 16 < 16 := Nat.mod_lt _ (by norm_num)
  rw [← hi]
  unfold hexDigitChar
  by_cases h10 : n / 16 ^ (7 - i) % 16 < 10
  · rw [if_pos h10]
    have : (Char.ofNat (48 + n / 16 ^ (7 - i) % 16)).toNat = 48 + n / 16 ^ (7 - i) % 16 :=
      char_toNat_ofNat (by omega)
    simp only [isHexLowerChar, this, Bool.or_eq_true, Bool.and_eq_true, decide_eq_true_eq]
    omega
  · rw [if_neg h10]
    have : (Char.ofNat (87 + n / 16 ^ (7 - i) % 16)).toNat = 87 + n / 16 ^ (7 - i) % 16 :=
      char_toNat_ofNat (by omega)
    simp only [isHexLowerChar, this, Bool.or_eq_true, Bool.and_eq_true, decide_eq_true_eq]
    omega

/-- C3: `vm_name_for_repo` is a pure function of the path string: it is
exactly "falck-", the sanitized basename, "-", and the 8 lowercase hex
digits of the low 32 bits of the 64-bit FNV-1a hash of the full path;
equal path strings give equal names, the hex suffix has length 8 with
lowercase hex characters only, and the sanitized basename is nonempty
with only lowercase alphanumerics and collapsed, trimmed dashes, with
"repo" substituted when sanitisation leaves nothing. -/
theorem vm_name_for_repo_spec (p : String) :
    vm_name_for_repo p =
      "falck-" ++ sanitize_name (path_basename p) ++ "-" ++
        toHex8 (fnv1a_hash p % 2 ^ 32) ∧
    (∀ q : String, q = p → vm_name_for_repo q = vm_name_for_repo p) ∧
    (toHex8 (fnv1a_hash p % 2 ^ 32)).length = 8 ∧
    (∀ c ∈ (toHex8 (fnv1a_hash p % 2 ^ 32)).data, isHexLowerChar c = true) ∧
    sanitizedShape (sanitize_name (path_basename p)) ∧
    (trimDashes (sanitizeCore (path_basename p).data false) = [] →
      sanitize_name (path_basename p) = "repo") := by
  refine ⟨rfl, ?_, toHex8_length _, toHex8_chars _, (sanitize_name_shape _).1,
    (sanitize_name_shape _).2⟩
  intro q hq
  rw [hq]

/-- Witness for C3 at the concrete path "/home/u/My Proj!": the theorem
applies and the pieces evaluate as expected. -/
theorem vm_name_for_repo_spec_witness :
    vm_name_for_repo "/home/u/My Proj!" =
      "falck-" ++ sanitize_name (path_basename "/home/u/My Proj!") ++ "-" ++
        toHex8 (fnv1a_hash "/home/u/My Proj!" % 2 ^ 32) ∧
    vm_name_for_repo "/home/u/My Proj!" = vm_name_for_repo "/home/u/My Proj!" ∧
    sanitize_name (path_basename "/home/u/My Proj!") = "my-proj" := by
  refine ⟨(vm_name_for_repo_spec "/home/u/My Proj!").1,
    (vm_name_for_repo_spec "/home/u/My Proj!").2.1 "/home/u/My Proj!" rfl, ?_⟩
  rfl

/-! ## C1: mount candidate ordering with read-only short-circuit -/

theorem try_host_literal_spec (g : LimaGuest) (name hostPath : String) :
    try_host_literal g name hostPath =
      (if path_exists_in_vm g hostPath then
        (if path_writable_in_vm g hostPath then Except.ok hostPath
         else Except.error (read_only_mount_msg name))
       else Except.error (not_mounted_msg name)) := by
  unfold try_host_literal
  by_cases he : path_exists_in_vm g hostPath = true
  · by_cases hw : path_writable_in_vm g hostPath = true
    · simp [he, hw]
    · simp [he, Bool.eq_false_iff.mpr hw]
  · simp [Bool.eq_false_iff.mpr he]

/-- C1: the Lima mount resolver probes the preferred, legacy,
home-relative (only when the host path is under the host home) and
literal host-path candidates in that order, selects the first existing
candidate, fails immediately with the read-only error when that
candidate is not writable, and fails with the not-mounted error when no
candidate exists; in particular, when only the legacy path exists and is
writable, resolution returns the legacy path. -/
theorem resolve_repo_root_candidate_order (g : LimaGuest) (hostHome : Option String)
    (vmHome : Except String String) (name p : String) :
    (path_exists_in_vm g (lima_mount_target p) = true →
      resolve_repo_root_lima g hostHome vmHome name p =
        (if path_writable_in_vm g (lima_mount_target p) then
          Except.ok (lima_mount_target p)
         else Except.error (read_only_mount_msg name))) ∧
    (path_exists_in_vm g (lima_mount_target p) = false →
     path_exists_in_vm g (lima_legacy_mount_target p) = true →
      resolve_repo_root_lima g hostHome vmHome name p =
        (if path_writable_in_vm g (lima_legacy_mount_target p) then
          Except.ok (lima_legacy_mount_target p)
         else Except.error (read_only_mount_msg name))) ∧
    (path_exists_in_vm g (lima_mount_target p) = false →
     path_exists_in_vm g (lima_legacy_mount_target p) = false →
     ∀ home, hostHome = some home → path_starts_with p home = true →
     ∀ vh, vmHome = Except.ok vh →
     path_exists_in_vm g (home_candidate vh p home) = true →
      resolve_repo_root_lima g hostHome vmHome name p =
        (if path_writable_in_vm g (home_candidate vh p home) then
          Except.ok (home_candidate vh p home)
         else Except.error (read_only_mount_msg name))) ∧
    (path_exists_in_vm g (lima_mount_target p) = false →
     path_exists_in_vm g (lima_legacy_mount_target p) = false →
     home_candidate_missing g hostHome vmHome p →
      resolve_repo_root_lima g hostHome vmHome name p =
        (if path_exists_in_vm g (replace_backslashes p) then
          (if path_writable_in_vm g (replace_backslashes p) then
            Except.ok (replace_backslashes p)
           else Except.error (read_only_mount_msg name))
         else Except.error (not_mounted_msg name))) := by
  refine ⟨?_, ?_, ?_, ?_⟩
  · intro hp
    unfold resolve_repo_root_lima
    by_cases hw : path_writable_in_vm g (lima_mount_target p) = true
    · simp [hp, hw]
    · simp [hp, Bool.eq_false_iff.mpr hw]
  · intro hp hl
    unfold resolve_repo_root_lima
    by_cases hw : path_writable_in_vm g (lima_legacy_mount_target p) = true
    · simp [hp, hl, hw]
    · simp [hp, hl, Bool.eq_false_iff.mpr hw]
  · intro hp hl home hh hsw vh hv hx
    subst hh
    subst hv
    unfold resolve_repo_root_lima
    unfold home_candidate at hx ⊢
    by_cases hw : path_writable_in_vm g
        (join_unix vh (replace_backslashes (path_rel_to p home))) = true
    · simp [hp, hl, hsw, hx, hw]
    · simp [hp, hl, hsw, hx, Bool.eq_false_iff.mpr hw]
  · intro hp hl hcm
    unfold resolve_repo_root_lima
    rw [← try_host_literal_spec g name (replace_backslashes p)]
    cases hostHome with
    | none => simp [hp, hl]
    | some home =>
      by_cases hsw : path_starts_with p home = true
      · obtain ⟨vh, hv, hnx⟩ := hcm home rfl hsw
        subst hv
        unfold home_candidate at hnx
        simp [hp, hl, hsw, hnx]
      · simp [hp, hl, Bool.eq_false_iff.mpr hsw]

/-- Concrete guest for the C1 witness: only the legacy mount path of
"/home/u/proj" exists, and it is writable. -/
def legacyOnlyGuest : LimaGuest :=
  { dirExists := fun path _ => path == lima_legacy_mount_target "/home/u/proj",
    dirWritable := fun path _ => path == lima_legacy_mount_target "/home/u/proj" }

/-- Witness for C1: with only the legacy path existing and writable,
resolution returns the legacy path. -/
theorem resolve_repo_root_candidate_order_witness :
    resolve_repo_root_lima legacyOnlyGuest none (Except.ok "/home/u.linux")
      "falck-proj-x" "/home/u/proj" =
      Except.ok (lima_legacy_mount_target "/home/u/proj") := by
  have h := (resolve_repo_root_candidate_order legacyOnlyGuest none
    (Except.ok "/home/u.linux") "falck-proj-x" "/home/u/proj").2.1
    (by decide) (by decide)
  rw [h]
  rw [if_pos (by decide)]

/-! ## C9: the WSL mount rewrite is pure and total -/

/-- C9 (amended): the WSL rewrite always succeeds and is purely
syntactic; a trimmed path whose first character is ASCII and whose
second character is ':' is rewritten to "/mnt/<drive lowercased>"
followed by the remainder with backslashes replaced and leading slashes
stripped, and every other path is returned trimmed with its backslashes
replaced by forward slashes. (The source tests the second byte, so a
non-ASCII first character always takes the fallback branch even when the
second character is ':'.) -/
theorem windows_path_to_wsl_spec (p : String) :
    (∀ c0 c1 rest, (rust_trim p).data = c0 :: c1 :: rest → c0.toNat < 128 → c1 = ':' →
      windows_path_to_wsl p =
        (if ((rest.map (fun c => if c = '\\' then '/' else c)).dropWhile (· = '/')).isEmpty then
          "/mnt/" ++ String.singleton (toAsciiLower c0)
         else
          "/mnt/" ++ String.singleton (toAsciiLower c0) ++ "/" ++
            (⟨(rest.map (fun c => if c = '\\' then '/' else c)).dropWhile (· = '/')⟩ : String))) ∧
    (second_byte_is_colon (rust_trim p).data = false →
      windows_path_to_wsl p = replace_backslashes (rust_trim p)) := by
  constructor
  · intro c0 c1 rest hdata hc0 hc1
    subst hc1
    simp only [windows_path_to_wsl]
    rw [hdata]
    simp [hc0]
  · intro hsb
    simp only [windows_path_to_wsl]
    cases hdata : (rust_trim p).data with
    | nil => rfl
    | cons c0 tl =>
      cases tl with
      | nil => rfl
      | cons c1 rest =>
        rw [hdata] at hsb
        simp only [second_byte_is_colon] at hsb
        simp only [hsb]
        simp

/-- Counterexample for C9 as stated: the path "é:\\x" has ':' as its
second character, yet the code leaves it in place (only replacing the
backslash) instead of rewriting it to the "/mnt/<drive>" form, because
the byte test fails on the two-byte first character. -/
theorem windows_path_to_wsl_counterexample :
    windows_path_to_wsl "é:\\x" = "é:/x" ∧
    windows_path_to_wsl_claimed "é:\\x" = "/mnt/é/x" ∧
    windows_path_to_wsl "é:\\x" ≠ windows_path_to_wsl_claimed "é:\\x" := by
  refine ⟨rfl, rfl, ?_⟩
  intro h
  have h2 : ("é:/x" : String) = "/mnt/é/x" := h
  exact absurd h2 (by decide)

/-- Witness for C9 (amended) at the drive path "C:\\Users\\dev" and at a
path with no drive letter. -/
theorem windows_path_to_wsl_spec_witness :
    windows_path_to_wsl "C:\\Users\\dev" = "/mnt/c/Users/dev" ∧
    windows_path_to_wsl "srv\\share" = "srv/share" := by
  constructor
  · have h := (windows_path_to_wsl_spec "C:\\Users\\dev").1 'C' ':'
      ['\\', 'U', 's', 'e', 'r', 's', '\\', 'd', 'e', 'v'] rfl (by decide) rfl
    rw [h]
    rfl
  · have h := (windows_path_to_wsl_spec "srv\\share").2 (by decide)
    rw [h]
    rfl

/-! ## C7: spawn helpers enforce spawn errors and timeouts -/

theorem poll_loop_spec (exitsAt : Option Nat) (st : ExitSt) (t : Nat) :
    ∀ fuel k, 5 * t + 2 ≤ k + fuel → k ≤ 5 * t + 1 →
      poll_loop exitsAt st t fuel k =
        (match exitsAt with
         | some e =>
           if e ≤ 5 * t + 1 then (Except.ok st, false)
           else (Except.error (timeout_msg t), true)
         | none => (Except.error (timeout_msg t), true)) := by
  intro fuel
  induction fuel with
  | zero =>
    intro k h1 h2
    omega
  | succ fuel ih =>
    intro k h1 h2
    cases hex : exitsAt with
    | none =>
      rw [poll_loop]
      have hexb : exited_by none k = false := rfl
      rw [hexb]
      rw [if_neg Bool.false_ne_true]
      by_cases hk : 200 * k > 1000 * t
      · rw [if_pos hk]
      · rw [if_neg hk]
        have := ih (k + 1) (by omega) (by omega)
        rw [hex] at this
        exact this
    | some e =>
      show poll_loop (some e) st t (fuel + 1) k =
        (if e ≤ 5 * t + 1 then (Except.ok st, false)
         else (Except.error (timeout_msg t), true))
      rw [poll_loop]
      by_cases he : e ≤ k
      · have hexb : exited_by (some e) k = true := by
          simp [exited_by, he]
        rw [hexb, if_pos rfl]
        rw [if_pos (show e ≤ 5 * t + 1 by omega)]
      · have hexb : exited_by (some e) k = false := by
          simp only [exited_by, decide_eq_false_iff_not]
          exact he
        rw [hexb, if_neg Bool.false_ne_true]
        by_cases hk : 200 * k > 1000 * t
        · rw [if_pos hk]
          rw [if_neg (show ¬(e ≤ 5 * t + 1) by omega)]
        · rw [if_neg hk]
          have := ih (k + 1) (by omega) (by omega)
          rw [hex] at this
          exact this

theorem poll_loop_timeout_none (st : ExitSt) (t : Nat) :
    poll_loop none st t (5 * t + 2) 0 = (Except.error (timeout_msg t), true) := by
  have h := poll_loop_spec none st t (5 * t + 2) 0 (by omega) (by omega)
  exact h

theorem poll_loop_timeout_late (st : ExitSt) (t e : Nat) (h : 5 * t + 1 < e) :
    poll_loop (some e) st t (5 * t + 2) 0 = (Except.error (timeout_msg t), true) := by
  have hp := poll_loop_spec (some e) st t (5 * t + 2) 0 (by omega) (by omega)
  rw [hp]
  show (if e ≤ 5 * t + 1 then (Except.ok st, false)
    else (Except.error (timeout_msg t), true)) = (Except.error (timeout_msg t), true)
  rw [if_neg (show ¬(e ≤ 5 * t + 1) by omega)]

theorem poll_loop_ok_early (st : ExitSt) (t e : Nat) (h : e ≤ 5 * t + 1) :
    poll_loop (some e) st t (5 * t + 2) 0 = (Except.ok st, false) := by
  have hp := poll_loop_spec (some e) st t (5 * t + 2) 0 (by omega) (by omega)
  rw [hp]
  show (if e ≤ 5 * t + 1 then (Except.ok st, false)
    else (Except.error (timeout_msg t), true)) = (Except.ok st, false)
  rw [if_pos h]

/-- Proposition: the child does not exit before the poll deadline
(iteration `5 t + 1` is the first whose elapsed time exceeds the
`t`-second timeout). -/
def not_exited_by_deadline (c : ChildProc) (t : Nat) : Prop :=
  ∀ e, c.exitsAt = some e → 5 * t + 1 < e

/-- C7: both spawn helpers fail immediately when the child cannot be
spawned; with a timeout configured, a child that has not exited by the
deadline is killed and the error names the configured timeout in
seconds; a child that exits within the deadline yields its exit status,
and the capture variant additionally returns both streams decoded
permissively (invalid bytes replaced). -/
theorem spawn_with_timeout_spec (c : ChildProc) (t : Nat) :
    (∀ e, c.spawnErr = some e →
      spawn_with_timeout c (some t) =
        (Except.error ("Failed to spawn command: " ++ e), false) ∧
      spawn_capture_with_timeout c (some t) =
        (Except.error ("Failed to spawn command: " ++ e), false)) ∧
    (c.spawnErr = none → not_exited_by_deadline c t →
      spawn_with_timeout c (some t) = (Except.error (timeout_msg t), true) ∧
      spawn_capture_with_timeout c (some t) = (Except.error (timeout_msg t), true)) ∧
    (c.spawnErr = none → ∀ e, c.exitsAt = some e → e ≤ 5 * t + 1 →
      spawn_with_timeout c (some t) = (Except.ok c.exitStatus, false) ∧
      spawn_capture_with_timeout c (some t) =
        (Except.ok (c.exitStatus, utf8_lossy c.stdoutBytes, utf8_lossy c.stderrBytes),
         false)) := by
  refine ⟨?_, ?_, ?_⟩
  · intro e he
    constructor
    · simp only [spawn_with_timeout, he]
    · simp only [spawn_capture_with_timeout, he]
  · intro hn hd
    have hpoll : poll_loop c.exitsAt c.exitStatus t (5 * t + 2) 0 =
        (Except.error (timeout_msg t), true) := by
      cases hex : c.exitsAt with
      | none => exact poll_loop_timeout_none c.exitStatus t
      | some e => exact poll_loop_timeout_late c.exitStatus t e (hd e hex)
    constructor
    · simp only [spawn_with_timeout, hn, hpoll]
    · simp only [spawn_capture_with_timeout, hn, hpoll]
  · intro hn e he hle
    have hpoll : poll_loop c.exitsAt c.exitStatus t (5 * t + 2) 0 =
        (Except.ok c.exitStatus, false) := by
      rw [he]
      exact poll_loop_ok_early c.exitStatus t e hle
    constructor
    · simp only [spawn_with_timeout, hn, hpoll]
    · simp only [spawn_capture_with_timeout, hn, hpoll]

/-- Concrete children for the C7 witness. -/
def promptChild : ChildProc :=
  { spawnErr := none, exitsAt := some 3, exitStatus := { success := true, code := some 0 },
    stdoutBytes := [104, 105, 0xff], stderrBytes := [] }

/-- A child that never exits, for the timeout case of the witness. -/
def hangingChild : ChildProc :=
  { spawnErr := none, exitsAt := none, exitStatus := { success := true, code := some 0 },
    stdoutBytes := [], stderrBytes := [] }

/-- Witness for C7: a child exiting at poll 3 under a 1-second timeout
returns its status with permissively decoded output (the invalid byte
0xff becomes U+FFFD), and a hanging child is killed with the timeout
error naming 1 second. -/
theorem spawn_with_timeout_spec_witness :
    spawn_capture_with_timeout promptChild (some 1) =
      (Except.ok ({ success := true, code := some 0 },
        ⟨['h', 'i', replChar]⟩, ""), false) ∧
    spawn_with_timeout hangingChild (some 1) =
      (Except.error "Command timed out after 1 seconds", true) := by
  constructor
  · have h := ((spawn_with_timeout_spec promptChild 1).2.2 rfl 3 rfl (by omega)).2
    rw [h]
    rfl
  · have h := ((spawn_with_timeout_spec hangingChild 1).2.1 rfl
      (by intro e he; cases he)).1
    rw [h]
    rfl

/-! ## C6: bootstrap failure with empty output -/

/-- Does `needle` occur as a contiguous substring of `hay`? -/
def substring_occurs (needle hay : String) : Bool :=
  (List.range (hay.data.length + 1)).any
    (fun i => needle.data.isPrefixOf (hay.data.drop i))

/-- Counterexample for C6 as stated: only the WSL provider ever runs the
guest bootstrap command (the function returns successfully at once for
Lima), and on a WSL failure with empty output the message carries the
exit code and byte counts but never the diagnostic logs — the
log-attachment branch requires the Lima provider. Here logs exist
("BOOTLOG") yet neither they nor the "(none found)" marker appear in
the error. -/
theorem ensure_vm_bootstrap_counterexample :
    ensure_vm_bootstrap VmProvider.wsl
        (Except.ok ({ success := false, code := some 1 }, "", "")) (some "BOOTLOG") =
      Except.error
        "Failed to install required VM packages (exit 1, stdout 0 bytes, stderr 0 bytes)." ∧
    substring_occurs "BOOTLOG"
      "Failed to install required VM packages (exit 1, stdout 0 bytes, stderr 0 bytes)." =
        false ∧
    substring_occurs "(none found)"
      "Failed to install required VM packages (exit 1, stdout 0 bytes, stderr 0 bytes)." =
        false := by
  refine ⟨rfl, rfl, rfl⟩

/-- C6 (amended): on a bootstrap command failure with empty combined
output the error message carries the exit code and the stdout/stderr
byte counts, but no diagnostic logs are attached: the log attachment is
guarded by the provider being Lima, and for Lima the function returns
success before ever running the guest command, so the only reachable
failure path (WSL) produces the bare byte-count summary. -/
theorem ensure_vm_bootstrap_empty_output (st : ExitSt) (stdout stderr : String)
    (logs : Option String) (hfail : st.success = false)
    (hempty : rust_trim (rust_trim stdout ++ "\n" ++ rust_trim stderr) = "") :
    ensure_vm_bootstrap VmProvider.wsl (Except.ok (st, stdout, stderr)) logs =
      Except.error (bootstrap_empty_output_msg st stdout stderr) ∧
    (∀ run logs2, ensure_vm_bootstrap VmProvider.lima run logs2 = Except.ok ()) := by
  constructor
  · simp only [ensure_vm_bootstrap]
    rw [if_neg (by decide)]
    rw [hfail]
    rw [if_neg Bool.false_ne_true]
    rw [hempty]
    rw [if_pos rfl]
    rw [if_neg (by decide)]
  · intro run logs2
    simp only [ensure_vm_bootstrap]
    rw [if_pos trivial]

/-- Witness for C6 (amended) at a concrete failing WSL bootstrap with
whitespace-only output. -/
theorem ensure_vm_bootstrap_empty_output_witness :
    ensure_vm_bootstrap VmProvider.wsl
        (Except.ok ({ success := false, code := none }, "  ", "\n")) none =
      Except.error
        "Failed to install required VM packages (exit unknown, stdout 2 bytes, stderr 1 bytes)." ∧
    ensure_vm_bootstrap VmProvider.lima (Except.error "boom") none = Except.ok () := by
  constructor
  · have h := (ensure_vm_bootstrap_empty_output { success := false, code := none }
      "  " "\n" none rfl rfl).1
    rw [h]
    rfl
  · exact (ensure_vm_bootstrap_empty_output { success := false, code := none }
      "  " "\n" none rfl rfl).2 (Except.error "boom") none

/-! ## C4 and C5: port-forward reconciliation -/

theorem normalize_ports_sorted (l : List Nat) :
    (normalize_ports l).Sorted (· ≤ ·) :=
  List.Pairwise.sublist (List.dedup_sublist _)
    (List.sorted_insertionSort _ _)

theorem normalize_ports_nodup (l : List Nat) : (normalize_ports l).Nodup :=
  List.nodup_dedup _

theorem normalize_ports_pos (l : List Nat) : ∀ x ∈ normalize_ports l, 0 < x := by
  intro x hx
  unfold normalize_ports at hx
  rw [List.mem_dedup] at hx
  rw [(List.perm_insertionSort _ _).mem_iff] at hx
  exact of_decide_eq_true (List.mem_filter.mp hx).2

theorem normalize_ports_idem_of (l : List Nat) (h1 : l.Sorted (· ≤ ·))
    (h2 : l.Nodup) (h3 : ∀ x ∈ l, 0 < x) : normalize_ports l = l := by
  unfold normalize_ports
  rw [List.filter_eq_self.mpr (fun a ha => decide_eq_true (h3 a ha))]
  rw [List.Sorted.insertionSort_eq h1]
  exact List.Nodup.dedup h2

theorem normalize_ports_filter_idem (l : List Nat) (q : Nat → Bool) :
    normalize_ports ((normalize_ports l).filter q) = (normalize_ports l).filter q := by
  apply normalize_ports_idem_of
  · exact List.Sorted.filter q (normalize_ports_sorted l)
  · exact List.Nodup.filter q (normalize_ports_nodup l)
  · intro x hx
    exact normalize_ports_pos l x (List.mem_of_mem_filter hx)

/-- C4: with the Lima provider, whenever the normalized desired port set
minus the persisted forwarded set is non-empty and the restart pipeline
succeeds, the reconciler performs exactly stop, start and
wait-for-readiness (no bootstrap re-run, which only non-Lima providers
would need), the start passes the port override as a configuration
`--set` expression, and that override expression appends exactly the
missing guest ports, each forwarded to the identical host port, onto the
existing `portForwards` list. -/
theorem ensure_vm_port_forwards_restarts (name p : String) (env : PfEnv)
    (ports : List Nat)
    (hne : (normalize_ports ports).filter (fun port => !env.existing.contains port) ≠ [])
    (hs : env.startResult = Except.ok ())
    (hw : env.waitResult = Except.ok ()) :
    ensure_vm_port_forwards VmProvider.lima name p env ports =
      (Except.ok (),
        [PfAction.stopVm name,
         PfAction.startVm name (limactl_start_sets p
           (some ((normalize_ports ports).filter (fun port => !env.existing.contains port)))),
         PfAction.waitReady name 90]) ∧
    limactl_start_sets p
        (some ((normalize_ports ports).filter (fun port => !env.existing.contains port))) =
      [lima_containerd_yq, lima_mounts_yq p,
       ".portForwards = (.portForwards // []) + [" ++
         String.intercalate ", "
           (((normalize_ports ports).filter (fun port => !env.existing.contains port)).map
             port_forward_entry) ++ "]"] := by
  have hidem := normalize_ports_filter_idem ports (fun port => !env.existing.contains port)
  have hmiss : lima_port_forwards_yq
      ((normalize_ports ports).filter (fun port => !env.existing.contains port)) =
      some (".portForwards = (.portForwards // []) + [" ++
        String.intercalate ", "
          (((normalize_ports ports).filter (fun port => !env.existing.contains port)).map
            port_forward_entry) ++ "]") := by
    unfold lima_port_forwards_yq
    rw [hidem]
    rw [if_neg (by
      intro hcon
      exact hne (List.isEmpty_iff.mp hcon))]
  constructor
  · have hdesired : (normalize_ports ports).isEmpty = false := by
      rw [Bool.eq_false_iff]
      intro hcon
      apply hne
      rw [List.isEmpty_iff.mp hcon]
      rfl
    have hmissing : ((normalize_ports ports).filter
        (fun port => !env.existing.contains port)).isEmpty = false := by
      rw [Bool.eq_false_iff]
      intro hcon
      exact hne (List.isEmpty_iff.mp hcon)
    simp only [ensure_vm_port_forwards]
    rw [if_neg (by simp)]
    rw [hdesired]
    rw [if_neg Bool.false_ne_true]
    rw [hmissing]
    rw [if_neg Bool.false_ne_true]
    rw [hs]
    simp only []
    rw [hw]
    simp only []
    rw [if_neg (by simp)]
    rfl
  · simp only [limactl_start_sets, hmiss]
    rfl

/-- C5: the reconciler performs no VM mutation at all and returns
success immediately when the provider does not support port forwards
(is not Lima), when the normalized desired set is empty, or when every
desired port is already in the persisted forwarded set. -/
theorem ensure_vm_port_forwards_noop (provider : VmProvider) (name p : String)
    (env : PfEnv) (ports : List Nat) :
    (provider ≠ VmProvider.lima →
      ensure_vm_port_forwards provider name p env ports = (Except.ok (), [])) ∧
    (normalize_ports ports = [] →
      ensure_vm_port_forwards VmProvider.lima name p env ports = (Except.ok (), [])) ∧
    ((normalize_ports ports).filter (fun port => !env.existing.contains port) = [] →
      ensure_vm_port_forwards VmProvider.lima name p env ports = (Except.ok (), [])) := by
  refine ⟨?_, ?_, ?_⟩
  · intro h
    simp only [ensure_vm_port_forwards]
    rw [if_pos h]
  · intro h
    simp only [ensure_vm_port_forwards]
    rw [if_neg (by simp)]
    rw [if_pos (by rw [h]; rfl)]
  · intro h
    by_cases hd : (normalize_ports ports).isEmpty = true
    · simp only [ensure_vm_port_forwards]
      rw [if_neg (by simp)]
      rw [if_pos hd]
    · simp only [ensure_vm_port_forwards]
      rw [if_neg (by simp)]
      rw [if_neg hd]
      rw [if_pos (by rw [h]; rfl)]

/-- Oracles for the C4/C5 witnesses: port 3000 is already forwarded and
all pipeline stages succeed. -/
def pfEnvW : PfEnv :=
  { existing := [3000], startResult := Except.ok (), waitResult := Except.ok (),
    bootstrapResult := Except.ok () }

/-- Witness for C4 at ports [8080, 3000] with 3000 already forwarded:
the reconciler stops, starts with the override for the missing port
8080 (forwarded to host port 8080), and waits for readiness. -/
theorem ensure_vm_port_forwards_restarts_witness :
    ensure_vm_port_forwards VmProvider.lima "falck-x" "/r" pfEnvW [8080, 3000] =
      (Except.ok (),
        [PfAction.stopVm "falck-x",
         PfAction.startVm "falck-x" (limactl_start_sets "/r" (some [8080])),
         PfAction.waitReady "falck-x" 90]) ∧
    limactl_start_sets "/r" (some [8080]) =
      [lima_containerd_yq, lima_mounts_yq "/r",
       ".portForwards = (.portForwards // []) + [\x7b\"guestPort\": 8080, \"hostPort\": 8080\x7d]"] := by
  have h := ensure_vm_port_forwards_restarts "falck-x" "/r" pfEnvW [8080, 3000]
    (by decide) rfl rfl
  constructor
  · rw [h.1]
    rfl
  · have h2 := h.2
    rw [show (normalize_ports [8080, 3000]).filter
        (fun port => !pfEnvW.existing.contains port) = [8080] from rfl] at h2
    rw [h2]
    rfl

/-- Witness for C5: a WSL call, an empty desired set, and an
already-covered desired set each produce success with no mutation. -/
theorem ensure_vm_port_forwards_noop_witness :
    ensure_vm_port_forwards VmProvider.wsl "falck-x" "/r" pfEnvW [8080] =
      (Except.ok (), []) ∧
    ensure_vm_port_forwards VmProvider.lima "falck-x" "/r" pfEnvW [0] =
      (Except.ok (), []) ∧
    ensure_vm_port_forwards VmProvider.lima "falck-x" "/r" pfEnvW [3000, 3000] =
      (Except.ok (), []) := by
  refine ⟨(ensure_vm_port_forwards_noop VmProvider.wsl "falck-x" "/r" pfEnvW [8080]).1
      (by decide),
    (ensure_vm_port_forwards_noop VmProvider.lima "falck-x" "/r" pfEnvW [0]).2.1 rfl,
    (ensure_vm_port_forwards_noop VmProvider.lima "falck-x" "/r" pfEnvW [3000, 3000]).2.2
      (by decide)⟩

/-! ## C8: resolve_backend leaves the VM running on mount failure -/

/-- C8: when the ensure-VM-running stage has succeeded and mount
resolution then fails, `resolve_backend` returns the mount-resolution
error unchanged, and its operation trace contains no stop and no delete:
the VM is left running, so a retry does not need to recreate it. -/
theorem resolve_backend_keeps_vm (provider : VmProvider) (g : LimaGuest)
    (hostHome : Option String) (vmHome : Except String String) (p vmName e : String)
    (hres : resolve_repo_root provider g hostHome vmHome vmName p = Except.error e) :
    resolve_backend BackendMode.virtualized provider (Except.ok vmName) g hostHome
        vmHome p =
      (Except.error e, [RbAction.ensureRunning, RbAction.resolveMount]) ∧
    ∀ a ∈ [RbAction.ensureRunning, RbAction.resolveMount],
      (∀ nm, a ≠ RbAction.stopVmOp nm) ∧ (∀ nm, a ≠ RbAction.deleteVmOp nm) := by
  constructor
  · simp only [resolve_backend]
    rw [if_neg (by simp)]
    rw [hres]
  · intro a ha
    rcases List.mem_cons.mp ha with h | h
    · subst h
      exact ⟨(fun nm hcon => nomatch hcon), (fun nm hcon => nomatch hcon)⟩
    · rcases List.mem_cons.mp h with h2 | h2
      · subst h2
        exact ⟨(fun nm hcon => nomatch hcon), (fun nm hcon => nomatch hcon)⟩
      · cases h2

/-- Guest for the C8 witness: no path exists in the guest at all, so
mount resolution fails with the not-mounted error. -/
def emptyGuest : LimaGuest :=
  { dirExists := fun _ _ => false, dirWritable := fun _ _ => false }

/-- Witness for C8: with a running VM whose guest has no mount,
`resolve_backend` surfaces the not-mounted error with a trace free of
stop/delete operations. -/
theorem resolve_backend_keeps_vm_witness :
    resolve_backend BackendMode.virtualized VmProvider.lima (Except.ok "falck-r-1")
        emptyGuest none (Except.ok "/home/vm") "/r" =
      (Except.error (not_mounted_msg "falck-r-1"),
       [RbAction.ensureRunning, RbAction.resolveMount]) := by
  exact (resolve_backend_keeps_vm VmProvider.lima emptyGuest none
    (Except.ok "/home/vm") "/r" "falck-r-1" (not_mounted_msg "falck-r-1") rfl).1

/-! ## C2: single-flight correctness -/

/-- No registry removal occurs in the trace. -/
def noRemove (acts : List SfAction) : Bool :=
  acts.all (fun a => !isRemove a)

theorem abr_append (acts : List SfAction) (a : SfAction)
    (h : arrivals_before_removals (acts ++ [a]) = true) :
    arrivals_before_removals acts = true ∧
      (isArrive a = true → noRemove acts = true) := by
  induction acts with
  | nil => exact ⟨rfl, fun _ => rfl⟩
  | cons b rest ih =>
    rw [List.cons_append] at h
    unfold arrivals_before_removals at h
    rw [Bool.and_eq_true] at h
    obtain ⟨H1, H2⟩ := h
    obtain ⟨habr, hna⟩ := ih H2
    constructor
    · unfold arrivals_before_removals
      rw [Bool.and_eq_true]
      refine ⟨?_, habr⟩
      by_cases hb : isRemove b = true
      · rw [if_pos hb] at H1 ⊢
        rw [List.all_append, Bool.and_eq_true] at H1
        exact H1.1
      · rw [if_neg hb]
    · intro harr
      unfold noRemove
      rw [List.all_cons, Bool.and_eq_true]
      refine ⟨?_, hna harr⟩
      by_cases hb : isRemove b = true
      · rw [if_pos hb, List.all_append, Bool.and_eq_true] at H1
        have := H1.2
        rw [List.all_cons, Bool.and_eq_true] at this
        rw [harr] at this
        exact absurd this.1 (by simp)
      · simp [Bool.eq_false_iff.mpr hb]

theorem noRemove_append (acts : List SfAction) (a : SfAction)
    (h : noRemove (acts ++ [a]) = true) :
    noRemove acts = true ∧ isRemove a = false := by
  unfold noRemove at h ⊢
  rw [List.all_append, Bool.and_eq_true] at h
  refine ⟨h.1, ?_⟩
  have := h.2
  rw [List.all_cons, Bool.and_eq_true] at this
  simpa using this.1

theorem sf_run_append (res : Nat → SfResult) (s : SfState) (acts : List SfAction)
    (a : SfAction) :
    sf_run res s (acts ++ [a]) =
      Option.bind (sf_run res s acts) (fun s₀ => sf_step res s₀ a) := by
  unfold sf_run
  rw [List.foldlM_append]
  cases List.foldlM (sf_step res) s acts with
  | none => rfl
  | some s₀ =>
    cases hstep : sf_step res s₀ a <;> simp [hstep]

theorem getElem?_set_cases {α : Type} {l : List α} {t i : Nat} {v w : α}
    (h : (l.set t v)[i]? = some w) : (i = t ∧ w = v) ∨ (i ≠ t ∧ l[i]? = some w) := by
  by_cases hit : i = t
  · subst hit
    have hlt : i < l.length := by
      by_contra hge
      rw [List.getElem?_eq_none (by
        rw [List.length_set]
        omega)] at h
      cases h
    rw [List.getElem?_set_self hlt] at h
    exact Or.inl ⟨rfl, (Option.some_inj.mp h).symm⟩
  · right
    refine ⟨hit, ?_⟩
    rwa [List.getElem?_set_ne (fun hc => hit hc.symm)] at h

theorem getElem?_set_same {α : Type} {l : List α} {t : Nat} {v : α} (h : t < l.length) :
    (l.set t v)[t]? = some v :=
  List.getElem?_set_self h

theorem lt_length_of_getElem?_some {α : Type} {l : List α} {t : Nat} {v : α}
    (h : l[t]? = some v) : t < l.length := by
  by_contra hge
  rw [List.getElem?_eq_none (by omega)] at h
  cases h

theorem isLeaderSt_tInit_false : isLeaderSt TSt.tInit = false := rfl

theorem sf_step_arrive_inv (res : Nat → SfResult) {s₀ s : SfState} {t : Nat}
    (hinv : SfInv res s₀) (hnpr : ¬(s₀.reg = none ∧ s₀.entries.length = 1))
    (hstep : sf_step res s₀ (SfAction.arrive t) = some s) :
    SfInv res s ∧ s.threads.length = s₀.threads.length ∧ s.reg ≠ none := by
  obtain ⟨hel, hreg, hregel, hempty, hthreads, hexec, hlead, huniq, hdone⟩ := hinv
  simp only [sf_step] at hstep
  cases hth : s₀.threads[t]? with
  | none => rw [hth] at hstep; cases hstep
  | some st =>
    rw [hth] at hstep
    have htlt : t < s₀.threads.length := lt_length_of_getElem?_some hth
    cases st with
    | tInit =>
      cases hreg0 : s₀.reg with
      | none =>
        rw [hreg0] at hstep
        injection hstep with hs
        subst hs
        have hel0 : s₀.entries.length = 0 := by
          rcases Nat.lt_or_ge s₀.entries.length 1 with h | h
          · omega
          · exact absurd ⟨hreg0, by omega⟩ hnpr
        have hent : s₀.entries = [] := List.length_eq_zero.mp hel0
        obtain ⟨_, hex0, hinit⟩ := hempty hel0
        refine ⟨⟨?_, ?_, ?_, ?_, ?_, ?_, ?_, ?_, ?_⟩, ?_, ?_⟩
        · simp [hent]
        · right
          simp [hel0]
        · intro _
          simp [hent]
        · intro hcon
          exact absurd hcon (by simp)
        · intro i sti hi
          rcases getElem?_set_cases hi with ⟨hit, hv⟩ | ⟨hit, hold⟩
          · subst hv
            refine ⟨by simp [hel0], by simpa using hex0, ?_, by simp [hel0]⟩
            rw [hel0, hent]
            rfl
          · rw [hinit i sti hold]
            trivial
        · intro _
          constructor
          · intro _
            simpa using hex0
          · intro hno
            exfalso
            apply hno
            refine ⟨t, s₀.entries.length, ?_⟩
            show (s₀.threads.set t (TSt.tLeadCompute s₀.entries.length))[t]? = _
            exact getElem?_set_same htlt
        · intro _
          refine ⟨t, TSt.tLeadCompute s₀.entries.length, ?_, rfl⟩
          exact getElem?_set_same htlt
        · intro t₁ t₂ st₁ st₂ h₁ h₂ hl₁ hl₂
          rcases getElem?_set_cases h₁ with ⟨hit₁, _⟩ | ⟨hit₁, hold₁⟩
          · rcases getElem?_set_cases h₂ with ⟨hit₂, _⟩ | ⟨hit₂, hold₂⟩
            · rw [hit₁, hit₂]
            · rw [hinit t₂ st₂ hold₂] at hl₂
              cases hl₂
          · rw [hinit t₁ st₁ hold₁] at hl₁
            cases hl₁
        · intro r hr
          simp [hent] at hr
        · simp
        · simp
      | some eid =>
        rw [hreg0] at hstep
        injection hstep with hs
        subst hs
        have heid : eid = 0 := by
          rcases hreg with h | h
          · rw [hreg0] at h
            exact absurd h (by simp)
          · rw [hreg0] at h
            exact Option.some_inj.mp h
        subst heid
        have hel1 : s₀.entries.length = 1 := hregel hreg0
        refine ⟨⟨hel, ?_, ?_, ?_, ?_, ?_, ?_, ?_, hdone⟩, ?_, ?_⟩
        · right; rfl
        · intro _; exact hel1
        · intro hcon
          exact absurd hcon (by simp [hel1])
        · intro i sti hi
          rcases getElem?_set_cases hi with ⟨hit, hv⟩ | ⟨hit, hold⟩
          · subst hv
            exact ⟨rfl, hel1⟩
          · have := hthreads i sti hold
            cases sti with
            | tInit => exact this
            | tFollower e => exact this
            | tDone r => exact this
            | tLeadCompute e => exact ⟨this.1, this.2.1, this.2.2.1, rfl⟩
            | tLeadPublish e r =>
              obtain ⟨a, b, c, d, _⟩ := this
              exact ⟨a, b, c, d, rfl⟩
            | tLeadRemove e r =>
              obtain ⟨a, b, c, d, _⟩ := this
              exact ⟨a, b, c, d, rfl⟩
        · intro _
          have hiff : (∃ (i e : Nat),
              (s₀.threads.set t (TSt.tFollower 0))[i]? = some (TSt.tLeadCompute e)) ↔
              (∃ (i e : Nat), s₀.threads[i]? = some (TSt.tLeadCompute e)) := by
            constructor
            · rintro ⟨i, e, hi⟩
              rcases getElem?_set_cases hi with ⟨_, hv⟩ | ⟨_, hold⟩
              · cases hv
              · exact ⟨i, e, hold⟩
            · rintro ⟨i, e, hi⟩
              have hit : i ≠ t := by
                intro hc
                subst hc
                rw [hth] at hi
                cases hi
              refine ⟨i, e, ?_⟩
              rwa [List.getElem?_set_ne (fun hc => hit hc.symm)]
          constructor
          · intro h
            exact (hexec hel1).1 (hiff.mp h)
          · intro h
            exact (hexec hel1).2 (fun hc => h (hiff.mpr hc))
        · intro _
          obtain ⟨t₀, st₀, ht₀, hl₀⟩ := hlead hreg0
          have ht₀t : t₀ ≠ t := by
            intro hc
            subst hc
            rw [hth] at ht₀
            injection ht₀ with he
            rw [← he] at hl₀
            cases hl₀
          refine ⟨t₀, st₀, ?_, hl₀⟩
          rwa [List.getElem?_set_ne (fun hc => ht₀t hc.symm)]
        · intro t₁ t₂ st₁ st₂ h₁ h₂ hl₁ hl₂
          rcases getElem?_set_cases h₁ with ⟨_, hv₁⟩ | ⟨_, hold₁⟩
          · rw [hv₁] at hl₁
            cases hl₁
          · rcases getElem?_set_cases h₂ with ⟨_, hv₂⟩ | ⟨_, hold₂⟩
            · rw [hv₂] at hl₂
              cases hl₂
            · exact huniq t₁ t₂ st₁ st₂ hold₁ hold₂ hl₁ hl₂
        · simp
        · simp [hreg0]
    | tFollower eid => cases hstep
    | tLeadCompute eid => cases hstep
    | tLeadPublish eid r => cases hstep
    | tLeadRemove eid r => cases hstep
    | tDone r => cases hstep

theorem sfinv_other_not_leader (res : Nat → SfResult) {s₀ : SfState}
    (hinv : SfInv res s₀) {t : Nat} {L : TSt} (ht : s₀.threads[t]? = some L)
    (hL : isLeaderSt L = true) {i : Nat} (hit : i ≠ t) {sti : TSt}
    (hi : s₀.threads[i]? = some sti) : isLeaderSt sti = false := by
  obtain ⟨_, _, _, _, _, _, _, huniq, _⟩ := hinv
  cases hls : isLeaderSt sti
  · rfl
  · exact absurd (huniq i t sti L hi ht hls hL) hit

theorem sf_step_compute_inv (res : Nat → SfResult) {s₀ s : SfState} {t : Nat}
    (hinv : SfInv res s₀)
    (hstep : sf_step res s₀ (SfAction.compute t) = some s) :
    SfInv res s ∧ s.threads.length = s₀.threads.length ∧ s.reg = s₀.reg ∧
      s.entries.length = s₀.entries.length := by
  have hinv' := hinv
  obtain ⟨hel, hreg, hregel, hempty, hthreads, hexec, hlead, huniq, hdone⟩ := hinv'
  simp only [sf_step] at hstep
  cases hth : s₀.threads[t]? with
  | none => rw [hth] at hstep; cases hstep
  | some st =>
    rw [hth] at hstep
    cases st with
    | tInit => cases hstep
    | tFollower eid => cases hstep
    | tLeadPublish eid r => cases hstep
    | tLeadRemove eid r => cases hstep
    | tDone r => cases hstep
    | tLeadCompute eid =>
      injection hstep with hs
      subst hs
      have htlt : t < s₀.threads.length := lt_length_of_getElem?_some hth
      obtain ⟨heid, hex0, hent0, hreg0⟩ := hthreads t _ hth
      subst heid
      have hel1 : s₀.entries.length = 1 := hregel hreg0
      refine ⟨⟨hel, hreg, hregel, ?_, ?_, ?_, ?_, ?_, hdone⟩, ?_, rfl, rfl⟩
      · intro hcon
        exact absurd hcon (by simp [hel1])
      · intro i sti hi
        rcases getElem?_set_cases hi with ⟨hit, hv⟩ | ⟨hit, hold⟩
        · subst hv
          exact ⟨rfl, by simp [hex0], by rw [hex0], hent0, hreg0⟩
        · have hTI := hthreads i sti hold
          have hnl : isLeaderSt sti = false :=
            sfinv_other_not_leader res hinv hth rfl hit hold
          cases sti with
          | tInit => trivial
          | tFollower e => exact hTI
          | tDone r => exact hTI
          | tLeadCompute e => cases hnl
          | tLeadPublish e r => cases hnl
          | tLeadRemove e r => cases hnl
      · intro _
        constructor
        · rintro ⟨i, e, hi⟩
          exfalso
          rcases getElem?_set_cases hi with ⟨_, hv⟩ | ⟨hit, hold⟩
          · cases hv
          · have hnl : isLeaderSt (TSt.tLeadCompute e) = false :=
              sfinv_other_not_leader res hinv hth rfl hit hold
            cases hnl
        · intro _
          simp [hex0]
      · intro _
        refine ⟨t, TSt.tLeadPublish 0 (res s₀.execCount), ?_, rfl⟩
        exact getElem?_set_same htlt
      · intro t₁ t₂ st₁ st₂ h₁ h₂ hl₁ hl₂
        rcases getElem?_set_cases h₁ with ⟨hit₁, _⟩ | ⟨hit₁, hold₁⟩
        · rcases getElem?_set_cases h₂ with ⟨hit₂, _⟩ | ⟨hit₂, hold₂⟩
          · rw [hit₁, hit₂]
          · have := sfinv_other_not_leader res hinv hth rfl hit₂ hold₂
            rw [hl₂] at this
            cases this
        · have := sfinv_other_not_leader res hinv hth rfl hit₁ hold₁
          rw [hl₁] at this
          cases this
      · simp

theorem sf_step_publish_inv (res : Nat → SfResult) {s₀ s : SfState} {t : Nat}
    (hinv : SfInv res s₀)
    (hstep : sf_step res s₀ (SfAction.publish t) = some s) :
    SfInv res s ∧ s.threads.length = s₀.threads.length ∧ s.reg = s₀.reg ∧
      s.entries.length = s₀.entries.length := by
  have hinv' := hinv
  obtain ⟨hel, hreg, hregel, hempty, hthreads, hexec, hlead, huniq, hdone⟩ := hinv'
  simp only [sf_step] at hstep
  cases hth : s₀.threads[t]? with
  | none => rw [hth] at hstep; cases hstep
  | some st =>
    rw [hth] at hstep
    cases st with
    | tInit => cases hstep
    | tFollower eid => cases hstep
    | tLeadCompute eid => cases hstep
    | tLeadRemove eid r => cases hstep
    | tDone r => cases hstep
    | tLeadPublish eid r =>
      injection hstep with hs
      subst hs
      have htlt : t < s₀.threads.length := lt_length_of_getElem?_some hth
      obtain ⟨heid, hex1, hr0, hent0, hreg0⟩ := hthreads t _ hth
      subst heid
      subst hr0
      have hel1 : s₀.entries.length = 1 := hregel hreg0
      have helt : 0 < s₀.entries.length := by omega
      refine ⟨⟨?_, hreg, ?_, ?_, ?_, ?_, ?_, ?_, ?_⟩, ?_, rfl, ?_⟩
      · simp [hel]
      · intro _
        simp [hel1]
      · intro hcon
        exact absurd hcon (by simp [hel1])
      · intro i sti hi
        rcases getElem?_set_cases hi with ⟨hit, hv⟩ | ⟨hit, hold⟩
        · subst hv
          refine ⟨rfl, hex1, rfl, ?_, hreg0⟩
          exact getElem?_set_same helt
        · have hTI := hthreads i sti hold
          have hnl : isLeaderSt sti = false :=
            sfinv_other_not_leader res hinv hth rfl hit hold
          cases sti with
          | tInit => trivial
          | tFollower e => exact ⟨hTI.1, by simp [hTI.2]⟩
          | tDone r => exact hTI
          | tLeadCompute e => cases hnl
          | tLeadPublish e r => cases hnl
          | tLeadRemove e r => cases hnl
      · intro _
        constructor
        · rintro ⟨i, e, hi⟩
          exfalso
          rcases getElem?_set_cases hi with ⟨_, hv⟩ | ⟨hit, hold⟩
          · cases hv
          · have hnl : isLeaderSt (TSt.tLeadCompute e) = false :=
              sfinv_other_not_leader res hinv hth rfl hit hold
            cases hnl
        · intro _
          exact hex1
      · intro _
        refine ⟨t, TSt.tLeadRemove 0 (res 0), ?_, rfl⟩
        exact getElem?_set_same htlt
      · intro t₁ t₂ st₁ st₂ h₁ h₂ hl₁ hl₂
        rcases getElem?_set_cases h₁ with ⟨hit₁, _⟩ | ⟨hit₁, hold₁⟩
        · rcases getElem?_set_cases h₂ with ⟨hit₂, _⟩ | ⟨hit₂, hold₂⟩
          · rw [hit₁, hit₂]
          · have := sfinv_other_not_leader res hinv hth rfl hit₂ hold₂
            rw [hl₂] at this
            cases this
        · have := sfinv_other_not_leader res hinv hth rfl hit₁ hold₁
          rw [hl₁] at this
          cases this
      · intro r' hr'
        rcases getElem?_set_cases hr' with ⟨_, hv⟩ | ⟨_, hold⟩
        · have hv2 := hv
          simp only [EntrySt.done.injEq] at hv2
          exact hv2
        · exact hdone r' hold
      · simp
      · simp

theorem sf_step_remove_inv (res : Nat → SfResult) {s₀ s : SfState} {t : Nat}
    (hinv : SfInv res s₀)
    (hstep : sf_step res s₀ (SfAction.removeEntry t) = some s) :
    SfInv res s ∧ s.threads.length = s₀.threads.length := by
  have hinv' := hinv
  obtain ⟨hel, hreg, hregel, hempty, hthreads, hexec, hlead, huniq, hdone⟩ := hinv'
  simp only [sf_step] at hstep
  cases hth : s₀.threads[t]? with
  | none => rw [hth] at hstep; cases hstep
  | some st =>
    rw [hth] at hstep
    cases st with
    | tInit => cases hstep
    | tFollower eid => cases hstep
    | tLeadCompute eid => cases hstep
    | tLeadPublish eid r => cases hstep
    | tDone r => cases hstep
    | tLeadRemove eid r =>
      injection hstep with hs
      subst hs
      have htlt : t < s₀.threads.length := lt_length_of_getElem?_some hth
      obtain ⟨heid, hex1, hr0, hent0, hreg0⟩ := hthreads t _ hth
      subst heid
      subst hr0
      have hel1 : s₀.entries.length = 1 := hregel hreg0
      refine ⟨⟨hel, Or.inl rfl, ?_, ?_, ?_, ?_, ?_, ?_, hdone⟩, ?_⟩
      · intro hcon
        cases hcon
      · intro hcon
        exact absurd hcon (by simp [hel1])
      · intro i sti hi
        rcases getElem?_set_cases hi with ⟨hit, hv⟩ | ⟨hit, hold⟩
        · subst hv
          rfl
        · have hTI := hthreads i sti hold
          have hnl : isLeaderSt sti = false :=
            sfinv_other_not_leader res hinv hth rfl hit hold
          cases sti with
          | tInit => trivial
          | tFollower e => exact hTI
          | tDone r => exact hTI
          | tLeadCompute e => cases hnl
          | tLeadPublish e r => cases hnl
          | tLeadRemove e r => cases hnl
      · intro _
        constructor
        · rintro ⟨i, e, hi⟩
          exfalso
          rcases getElem?_set_cases hi with ⟨_, hv⟩ | ⟨hit, hold⟩
          · cases hv
          · have hnl : isLeaderSt (TSt.tLeadCompute e) = false :=
              sfinv_other_not_leader res hinv hth rfl hit hold
            cases hnl
        · intro _
          exact hex1
      · intro hcon
        cases hcon
      · intro t₁ t₂ st₁ st₂ h₁ h₂ hl₁ hl₂
        rcases getElem?_set_cases h₁ with ⟨hit₁, hv₁⟩ | ⟨hit₁, hold₁⟩
        · rw [hv₁] at hl₁
          cases hl₁
        · have := sfinv_other_not_leader res hinv hth rfl hit₁ hold₁
          rw [hl₁] at this
          cases this
      · simp

theorem sf_step_observe_inv (res : Nat → SfResult) {s₀ s : SfState} {t : Nat}
    (hinv : SfInv res s₀)
    (hstep : sf_step res s₀ (SfAction.observe t) = some s) :
    SfInv res s ∧ s.threads.length = s₀.threads.length ∧ s.reg = s₀.reg ∧
      s.entries.length = s₀.entries.length := by
  have hinv' := hinv
  obtain ⟨hel, hreg, hregel, hempty, hthreads, hexec, hlead, huniq, hdone⟩ := hinv'
  simp only [sf_step] at hstep
  cases hth : s₀.threads[t]? with
  | none => rw [hth] at hstep; cases hstep
  | some st =>
    rw [hth] at hstep
    cases st with
    | tInit => cases hstep
    | tLeadCompute eid => cases hstep
    | tLeadPublish eid r => cases hstep
    | tLeadRemove eid r => cases hstep
    | tDone r => cases hstep
    | tFollower eid =>
      obtain ⟨heid, hel1⟩ := hthreads t _ hth
      subst heid
      dsimp only at hstep
      cases hent : s₀.entries[0]? with
      | none => rw [hent] at hstep; cases hstep
      | some ent =>
        rw [hent] at hstep
        cases ent with
        | running => cases hstep
        | done r =>
          injection hstep with hs
          subst hs
          have htlt : t < s₀.threads.length := lt_length_of_getElem?_some hth
          have hr0 : r = res 0 := hdone r hent
          subst hr0
          refine ⟨⟨hel, hreg, hregel, ?_, ?_, ?_, ?_, ?_, hdone⟩, ?_, rfl, rfl⟩
          · intro hcon
            exact absurd hcon (by simp [hel1])
          · intro i sti hi
            rcases getElem?_set_cases hi with ⟨hit, hv⟩ | ⟨hit, hold⟩
            · subst hv
              rfl
            · have hTI := hthreads i sti hold
              cases sti <;> exact hTI
          · intro _
            have hiff : (∃ (i e : Nat),
                (s₀.threads.set t (TSt.tDone (res 0)))[i]? = some (TSt.tLeadCompute e)) ↔
                (∃ (i e : Nat), s₀.threads[i]? = some (TSt.tLeadCompute e)) := by
              constructor
              · rintro ⟨i, e, hi⟩
                rcases getElem?_set_cases hi with ⟨_, hv⟩ | ⟨_, hold⟩
                · cases hv
                · exact ⟨i, e, hold⟩
              · rintro ⟨i, e, hi⟩
                have hit : i ≠ t := by
                  intro hc
                  subst hc
                  rw [hth] at hi
                  cases hi
                refine ⟨i, e, ?_⟩
                rwa [List.getElem?_set_ne (fun hc => hit hc.symm)]
            constructor
            · intro h
              exact (hexec hel1).1 (hiff.mp h)
            · intro h
              exact (hexec hel1).2 (fun hc => h (hiff.mpr hc))
          · intro hr
            obtain ⟨t₀, st₀, ht₀, hl₀⟩ := hlead hr
            have ht₀t : t₀ ≠ t := by
              intro hc
              subst hc
              rw [hth] at ht₀
              injection ht₀ with he
              rw [← he] at hl₀
              cases hl₀
            refine ⟨t₀, st₀, ?_, hl₀⟩
            rwa [List.getElem?_set_ne (fun hc => ht₀t hc.symm)]
          · intro t₁ t₂ st₁ st₂ h₁ h₂ hl₁ hl₂
            rcases getElem?_set_cases h₁ with ⟨_, hv₁⟩ | ⟨_, hold₁⟩
            · rw [hv₁] at hl₁
              cases hl₁
            · rcases getElem?_set_cases h₂ with ⟨_, hv₂⟩ | ⟨_, hold₂⟩
              · rw [hv₂] at hl₂
                cases hl₂
              · exact huniq t₁ t₂ st₁ st₂ hold₁ hold₂ hl₁ hl₂
          · simp

theorem sf_inv_init (res : Nat → SfResult) (N : Nat) : SfInv res (sf_init N) := by
  refine ⟨by simp [sf_init], Or.inl rfl, ?_, ?_, ?_, ?_, ?_, ?_, ?_⟩
  · intro hcon
    cases hcon
  · intro _
    refine ⟨rfl, rfl, ?_⟩
    intro t st h
    simp only [sf_init, List.getElem?_replicate] at h
    by_cases ht : t < N
    · rw [if_pos ht] at h
      exact (Option.some_inj.mp h).symm
    · rw [if_neg ht] at h
      cases h
  · intro t st h
    simp only [sf_init, List.getElem?_replicate] at h
    by_cases ht : t < N
    · rw [if_pos ht] at h
      rw [← Option.some_inj.mp h]
      trivial
    · rw [if_neg ht] at h
      cases h
  · intro hcon
    cases hcon
  · intro hcon
    cases hcon
  · intro t₁ t₂ st₁ st₂ h₁ h₂ hl₁ hl₂
    exfalso
    simp only [sf_init, List.getElem?_replicate] at h₁
    by_cases ht : t₁ < N
    · rw [if_pos ht] at h₁
      rw [← Option.some_inj.mp h₁] at hl₁
      cases hl₁
    · rw [if_neg ht] at h₁
      cases h₁
  · intro r hr
    cases hr

theorem sf_run_inv (res : Nat → SfResult) (N : Nat) (acts : List SfAction) (s : SfState)
    (hrun : sf_run res (sf_init N) acts = some s)
    (hconc : arrivals_before_removals acts = true) :
    SfInv res s ∧ s.threads.length = N ∧
      (noRemove acts = true → ¬(s.reg = none ∧ s.entries.length = 1)) := by
  induction acts using List.reverseRecOn generalizing s with
  | nil =>
    have hs : sf_init N = s := by
      simpa [sf_run] using hrun
    subst hs
    refine ⟨sf_inv_init res N, by simp [sf_init], ?_⟩
    intro _ hcon
    have : (sf_init N).entries.length = 0 := by simp [sf_init]
    omega
  | append_singleton acts a ih =>
    rw [sf_run_append] at hrun
    cases hr0 : sf_run res (sf_init N) acts with
    | none =>
      rw [hr0] at hrun
      cases hrun
    | some s₀ =>
      rw [hr0] at hrun
      have hstep : sf_step res s₀ a = some s := hrun
      obtain ⟨habr, hnra⟩ := abr_append acts a hconc
      obtain ⟨hinv₀, hlen₀, hnpr₀⟩ := ih s₀ hr0 habr
      cases a with
      | arrive t =>
        have hnpr : ¬(s₀.reg = none ∧ s₀.entries.length = 1) := hnpr₀ (hnra rfl)
        obtain ⟨hinv', hlen', hregne⟩ := sf_step_arrive_inv res hinv₀ hnpr hstep
        refine ⟨hinv', by omega, ?_⟩
        intro _ hcon
        exact hregne hcon.1
      | compute t =>
        obtain ⟨hinv', hlen', hregeq, heleq⟩ := sf_step_compute_inv res hinv₀ hstep
        refine ⟨hinv', by omega, ?_⟩
        intro hnr hcon
        obtain ⟨hnr₀, _⟩ := noRemove_append acts _ hnr
        exact hnpr₀ hnr₀ ⟨by rw [← hregeq]; exact hcon.1, by rw [← heleq]; exact hcon.2⟩
      | publish t =>
        obtain ⟨hinv', hlen', hregeq, heleq⟩ := sf_step_publish_inv res hinv₀ hstep
        refine ⟨hinv', by omega, ?_⟩
        intro hnr hcon
        obtain ⟨hnr₀, _⟩ := noRemove_append acts _ hnr
        exact hnpr₀ hnr₀ ⟨by rw [← hregeq]; exact hcon.1, by rw [← heleq]; exact hcon.2⟩
      | observe t =>
        obtain ⟨hinv', hlen', hregeq, heleq⟩ := sf_step_observe_inv res hinv₀ hstep
        refine ⟨hinv', by omega, ?_⟩
        intro hnr hcon
        obtain ⟨hnr₀, _⟩ := noRemove_append acts _ hnr
        exact hnpr₀ hnr₀ ⟨by rw [← hregeq]; exact hcon.1, by rw [← heleq]; exact hcon.2⟩
      | removeEntry t =>
        obtain ⟨hinv', hlen'⟩ := sf_step_remove_inv res hinv₀ hstep
        refine ⟨hinv', by omega, ?_⟩
        intro hnr _
        obtain ⟨_, hfalse⟩ := noRemove_append acts _ hnr
        cases hfalse

/-- C2: in the single-flight model of `ensure_vm_running`, for any
number of callers of the same repo-path key and any interleaving of the
atomic registry events in which every caller reaches the registry before
the leader removes the in-flight record (the concurrency assumption),
once all callers have finished exactly one leader-side
create/start/bootstrap execution has happened, every caller holds the
identical cloned result `res 0` (the same VM name on success, the
leader's exact error string verbatim on failure), and the in-flight
record has been removed; moreover, from any state whose registry slot is
empty, a fresh caller's registry access makes it a new leader with a new
record, so a subsequent call re-executes the sequence instead of
replaying a cached result. -/
theorem ensure_vm_running_single_flight (res : Nat → SfResult) (N : Nat)
    (acts : List SfAction) (s : SfState)
    (hrun : sf_run res (sf_init N) acts = some s)
    (hconc : arrivals_before_removals acts = true)
    (hN : 1 ≤ N)
    (hall : ∀ (t : Nat) (st : TSt), s.threads[t]? = some st → ∃ r, st = TSt.tDone r) :
    s.execCount = 1 ∧
    (∀ (t : Nat) (st : TSt), s.threads[t]? = some st → st = TSt.tDone (res 0)) ∧
    s.reg = none ∧
    (∀ (s' : SfState) (t' : Nat), s'.reg = none → s'.threads[t']? = some TSt.tInit →
      sf_step res s' (SfAction.arrive t') =
        some { reg := some s'.entries.length,
               entries := s'.entries ++ [EntrySt.running],
               threads := s'.threads.set t' (TSt.tLeadCompute s'.entries.length),
               execCount := s'.execCount }) := by
  obtain ⟨hinv, hlen, _⟩ := sf_run_inv res N acts s hrun hconc
  obtain ⟨hel, hreg, hregel, hempty, hthreads, hexec, hlead, huniq, hdone⟩ := hinv
  have h0lt : 0 < s.threads.length := by omega
  have hst0 : s.threads[0]? = some s.threads[0] := List.getElem?_eq_getElem h0lt
  obtain ⟨r0, hr0⟩ := hall 0 _ hst0
  have hel1 : s.entries.length = 1 := by
    rcases Nat.lt_or_ge s.entries.length 1 with h | h
    · exfalso
      have h0' : s.entries.length = 0 := by omega
      have := (hempty h0').2.2 0 _ hst0
      rw [hr0] at this
      cases this
    · omega
  have hnoleadC : ¬ ∃ (i e : Nat), s.threads[i]? = some (TSt.tLeadCompute e) := by
    rintro ⟨i, e, hi⟩
    obtain ⟨ri, hri⟩ := hall i _ hi
    cases hri
  have hexec1 : s.execCount = 1 := (hexec hel1).2 hnoleadC
  have hregnone : s.reg = none := by
    rcases hreg with h | h
    · exact h
    · exfalso
      obtain ⟨t₀, st₀, ht₀, hl₀⟩ := hlead h
      obtain ⟨r₀, hr₀⟩ := hall t₀ st₀ ht₀
      rw [hr₀] at hl₀
      cases hl₀
  refine ⟨hexec1, ?_, hregnone, ?_⟩
  · intro t st hst
    obtain ⟨r, hr⟩ := hall t st hst
    subst hr
    have hti := hthreads t _ hst
    have hres : r = res 0 := hti
    rw [hres]
  · intro s' t' hreg' hth'
    simp only [sf_step]
    rw [hth']
    rw [hreg']

/-- Result oracle for the C2 witness: the leader's execution returns a
VM name. -/
def resW : Nat → SfResult :=
  fun _ => Except.ok "falck-proj-0a1b2c3d"

/-- A concrete concurrent interleaving of two callers: both arrive
before the leader removes the record. -/
def actsW : List SfAction :=
  [SfAction.arrive 0, SfAction.arrive 1, SfAction.compute 0, SfAction.publish 0,
   SfAction.removeEntry 0, SfAction.observe 1]

/-- The final state of the witness interleaving. -/
def sfFinalW : SfState :=
  { reg := none,
    entries := [EntrySt.done (Except.ok "falck-proj-0a1b2c3d")],
    threads := [TSt.tDone (Except.ok "falck-proj-0a1b2c3d"),
                TSt.tDone (Except.ok "falck-proj-0a1b2c3d")],
    execCount := 1 }

/-- Witness for C2: replaying the concrete two-caller interleaving ends
with one execution, both callers holding the same result, the record
removed, and a fresh arrival on an empty registry becoming a new
leader. -/
theorem ensure_vm_running_single_flight_witness :
    sf_run resW (sf_init 2) actsW = some sfFinalW ∧
    sfFinalW.execCount = 1 ∧
    sfFinalW.reg = none ∧
    sfFinalW.threads = [TSt.tDone (resW 0), TSt.tDone (resW 0)] ∧
    sf_step resW (sf_init 1) (SfAction.arrive 0) =
      some { reg := some 0, entries := [EntrySt.running],
             threads := [TSt.tLeadCompute 0], execCount := 0 } := by
  have hrun : sf_run resW (sf_init 2) actsW = some sfFinalW := rfl
  have hall : ∀ (t : Nat) (st : TSt), sfFinalW.threads[t]? = some st →
      ∃ r, st = TSt.tDone r := by
    intro t st h
    match t, h with
    | 0, h => exact ⟨_, (Option.some_inj.mp h).symm⟩
    | 1, h => exact ⟨_, (Option.some_inj.mp h).symm⟩
    | n + 2, h => exact absurd h (by simp [sfFinalW])
  have h := ensure_vm_running_single_flight resW 2 actsW sfFinalW hrun rfl
    (by omega) hall
  exact ⟨hrun, h.1, h.2.2.1, rfl, h.2.2.2 (sf_init 1) 0 rfl rfl⟩

end Falck
